import Mathlib

/-!
Verification development for the fractal-generator core
(`fractal-wasm/src/lib.rs`): the chaotic-map density accumulator
(`ChaoticAccumulator`), the polynomial map evaluators, the Kaplan-Yorke
dimension, the chaos-classifier exclusion rules, and the Lyapunov test
(`test_chaos`).

Modeling conventions:
* `f64` values are modeled as exact rationals (`ℚ`) in the accumulator /
  classifier arithmetic, which only uses field operations, comparisons and
  truncating casts, and as reals (`ℝ`) in the Lyapunov pipeline, which
  needs `sqrt` and `ln`.  Rounding and overflow of `f64` are not modeled.
* Rust slice indexing `args[i]` panics when the slice is too short.  The
  evaluators carry two embeddings: a total one (`map_quadratic`), which
  reads coefficients with `List.getD _ 0`, and a panic-aware one
  (`map_quadratic_checked`) returning `Option`, where `none` is the panic
  branch.  For coefficient vectors of the documented arity the two agree
  (proved below), so the total form is faithful wherever the arity is
  respected.
* Rust `as usize` on a nonnegative `f64` truncates toward zero; on the
  values produced here that is `Int.toNat ∘ Int.floor`.  The two `f64`
  division-by-zero corners that can reach this cast (degenerate bounds)
  produce `NaN` in Rust, which casts to `0`; rational division by zero is
  `0`, so the embedding agrees there as well.
* IEEE special values arising inside `test_chaos` (`0.0/0.0`, `ln 0`) are
  modeled explicitly: tangent vectors carry poison flags recording that
  their components would be `NaN`, and the three log-sums live in
  `Option ℝ`, where `none` records a sum contaminated by `-∞` or `NaN`
  (in either case the final `f64` sum compares unequal to `-1.0`).
-/

/-! ## Polynomial map evaluators (exact-rational form) -/

/-- Quadratic map `a + b·x + c·x² + d·x·y + e·y + f·y²`, coefficients read
with default 0 (total form of `map_quadratic` in `lib.rs`). -/
def map_quadratic (args : List ℚ) (x y : ℚ) : ℚ :=
  args.getD 0 0 + args.getD 1 0 * x + args.getD 2 0 * (x * x) +
    args.getD 3 0 * (x * y) + args.getD 4 0 * y + args.getD 5 0 * (y * y)

/-- Cubic map with 10 coefficients (total form of `map_cubic` in `lib.rs`). -/
def map_cubic (args : List ℚ) (x y : ℚ) : ℚ :=
  args.getD 0 0 + args.getD 1 0 * x + args.getD 2 0 * x * x +
    args.getD 3 0 * x * x * x + args.getD 4 0 * x * x * y +
    args.getD 5 0 * x * y + args.getD 6 0 * x * y * y +
    args.getD 7 0 * y + args.getD 8 0 * y * y + args.getD 9 0 * y * y * y

/-- Panic-aware quadratic evaluator: Rust `args[0] .. args[5]` panics when
`args.len() < 6`; the `none` branch is that panic. -/
def map_quadratic_checked (args : List ℚ) (x y : ℚ) : Option ℚ :=
  match args with
  | a :: b :: c :: d :: e :: f :: _ =>
      some (a + b * x + c * (x * x) + d * (x * y) + e * y + f * (y * y))
  | _ => none

/-- Panic-aware cubic evaluator: Rust `args[0] .. args[9]` panics when
`args.len() < 10`; the `none` branch is that panic. -/
def map_cubic_checked (args : List ℚ) (x y : ℚ) : Option ℚ :=
  match args with
  | a0 :: a1 :: a2 :: a3 :: a4 :: a5 :: a6 :: a7 :: a8 :: a9 :: _ =>
      some (a0 + a1 * x + a2 * x * x + a3 * x * x * x + a4 * x * x * y +
        a5 * x * y + a6 * x * y * y + a7 * y + a8 * y * y + a9 * y * y * y)
  | _ => none

/-! ## Kaplan-Yorke dimension and exclusion rules -/

/-- `FractalGenerator::fractal_dimension`: Kaplan-Yorke dimension from the
two Lyapunov exponents. -/
def fractal_dimension (max_le min_le : ℚ) : ℚ :=
  if max_le < 0 then 0
  else
    let sum := max_le + min_le
    let jp : ℚ × ℚ := if sum > 0 then (2, sum) else (1, max_le)
    jp.1 + jp.2 / |min_le|

/-- `FractalGenerator::exclude_quadratic`. -/
def exclude_quadratic (max_le min_le c fd thresh : ℚ) : Bool :=
  decide (max_le ≤ thresh) || decide (|fd - 1| < 0.11)

/-- `FractalGenerator::exclude_cubic`: the Rust loop over `[1.0, 2.0]`. -/
def exclude_cubic (max_le min_le c fd thresh : ℚ) : Bool :=
  [(1 : ℚ), 2].foldl (fun acc i => acc || decide (|fd - i| < 0.11))
    (decide (max_le ≤ thresh))

/-- Acceptance decision of one trial of `find_random_chaos_extended`, given
the spectrum returned by `test_chaos`: a sentinel spectrum (`max_le = -1`)
retries, otherwise the trial is accepted iff the degree-specific exclusion
rule (with `le_thresh = 1e-4`) does not fire on the Kaplan-Yorke
dimension. -/
def trial_accepted (is_cubic : Bool) (max_le min_le c : ℚ) : Bool :=
  if max_le = -1 then false
  else
    let fd := fractal_dimension max_le min_le
    !(if is_cubic then exclude_cubic max_le min_le c fd 1e-4
      else exclude_quadratic max_le min_le c fd 1e-4)

/-! ## The density accumulator

`ChaoticAccumulator` from `lib.rs`.  The sparse per-row `HashMap<u32,u16>`
is modeled as a function `ℕ → Option ℕ` (`none` = key absent); all columns
ever inserted are `idx % width < width`, under which the export-by-writing
of the Rust code coincides with the pointwise read used below.  `u16`
counters are modeled as `ℕ`; `saturating_add 1` is `min (· + 1) 65535`. -/

/-- Saturation bound of a density cell (`u16::MAX`). -/
def U16_MAX : ℕ := 65535

/-- Dense-grid switch threshold (`MAX_CONTIGUOUS_PIXELS`). -/
def MAX_CONTIGUOUS_PIXELS : ℕ := 50000000

structure ChaoticAccumulator where
  x_params : List ℚ
  y_params : List ℚ
  is_cubic : Bool
  width : ℕ
  height : ℕ
  min_x : ℚ
  max_x : ℚ
  min_y : ℚ
  max_y : ℚ
  x : ℚ
  y : ℚ
  density : Option (List ℕ)
  sparse_rows : Option (List (ℕ → Option ℕ))
  use_chunked : Bool
  non_zero : ℕ

namespace ChaoticAccumulator

/-- Constructor with the backing choice exposed as a parameter (the two
branches of `ChaoticAccumulator::new`); `new` below instantiates the flag
from the pixel-count ceiling. -/
def mkWith (use_chunked : Bool) (x_params y_params : List ℚ) (is_cubic : Bool)
    (width height : ℕ) (min_x max_x min_y max_y start_x start_y : ℚ) :
    ChaoticAccumulator :=
  if use_chunked then
    { x_params := x_params, y_params := y_params, is_cubic := is_cubic,
      width := width, height := height,
      min_x := min_x, max_x := max_x, min_y := min_y, max_y := max_y,
      x := start_x, y := start_y,
      density := none,
      sparse_rows := some (List.replicate height (fun _ => none)),
      use_chunked := true, non_zero := 0 }
  else
    { x_params := x_params, y_params := y_params, is_cubic := is_cubic,
      width := width, height := height,
      min_x := min_x, max_x := max_x, min_y := min_y, max_y := max_y,
      x := start_x, y := start_y,
      density := some (List.replicate (width * height) 0),
      sparse_rows := none,
      use_chunked := false, non_zero := 0 }

/-- `ChaoticAccumulator::new`: backing selected by total pixel count. -/
def new (x_params y_params : List ℚ) (is_cubic : Bool) (width height : ℕ)
    (min_x max_x min_y max_y start_x start_y : ℚ) : ChaoticAccumulator :=
  mkWith (decide (width * height > MAX_CONTIGUOUS_PIXELS)) x_params y_params
    is_cubic width height min_x max_x min_y max_y start_x start_y

/-- `get_density`: read the counter at a linear index from either backing. -/
def get_density (s : ChaoticAccumulator) (idx : ℕ) : ℕ :=
  if s.use_chunked then
    match s.sparse_rows with
    | some rows =>
        if s.width = 0 then 0
        else
          let row := idx / s.width
          let col := idx % s.width
          if row < rows.length then ((rows.getD row (fun _ => none)) col).getD 0
          else 0
    | none => 0
  else ((s.density.getD []).getD idx 0)

/-- `set_density`: write a counter value (sparse rows store a zero as key
removal). -/
def set_density (s : ChaoticAccumulator) (idx : ℕ) (value : ℕ) :
    ChaoticAccumulator :=
  if s.use_chunked then
    match s.sparse_rows with
    | some rows =>
        if s.width = 0 then s
        else
          let row := idx / s.width
          let col := idx % s.width
          if row < rows.length then
            let r := rows.getD row (fun _ => none)
            let r2 : ℕ → Option ℕ :=
              if value = 0 then fun c => if c = col then none else r c
              else fun c => if c = col then some value else r c
            { s with sparse_rows := some (rows.set row r2) }
          else s
    | none => s
  else
    match s.density with
    | some d => if idx < d.length then { s with density := some (d.set idx value) } else s
    | none => s

/-- `increment_density`: bump the counter at `idx`, saturating at
`U16_MAX`; the returned flag reports whether the cell was newly lit. -/
def increment_density (s : ChaoticAccumulator) (idx : ℕ) :
    ChaoticAccumulator × Bool :=
  if s.use_chunked then
    match s.sparse_rows with
    | some rows =>
        if s.width = 0 then (s, false)
        else
          let row := idx / s.width
          let col := idx % s.width
          if row < rows.length then
            let r := rows.getD row (fun _ => none)
            match r col with
            | some v =>
                let r2 : ℕ → Option ℕ := fun c =>
                  if c = col then some (if v < U16_MAX then min (v + 1) U16_MAX else v)
                  else r c
                ({ s with sparse_rows := some (rows.set row r2) }, false)
            | none =>
                let r2 : ℕ → Option ℕ := fun c => if c = col then some 1 else r c
                ({ s with sparse_rows := some (rows.set row r2) }, true)
          else (s, false)
    | none => (s, false)
  else
    let current := s.get_density idx
    let wasZero := decide (current = 0)
    let newVal := if current = U16_MAX then U16_MAX else min (current + 1) U16_MAX
    (s.set_density idx newVal, wasZero)

/-- The next orbit point of the accumulator (the two degree-dispatched
map evaluations at the head of the `step_batch` loop body). -/
def orbit_next (s : ChaoticAccumulator) : ℚ × ℚ :=
  (if s.is_cubic then map_cubic s.x_params s.x s.y else map_quadratic s.x_params s.x s.y,
   if s.is_cubic then map_cubic s.y_params s.x s.y else map_quadratic s.y_params s.x s.y)

/-- Pixel coordinates of a point, by linear rescaling into
`[0,width)×[0,height)`; Rust casts the nonnegative `f64` with a truncating
`as usize`, i.e. `Int.toNat ∘ Int.floor` here. -/
def pixel_of (s : ChaoticAccumulator) (x y : ℚ) : ℕ × ℕ :=
  ((Int.floor ((x - s.min_x) / (s.max_x - s.min_x) * s.width)).toNat,
   (Int.floor ((y - s.min_y) / (s.max_y - s.min_y) * s.height)).toNat)

/-- One iteration of the `step_batch` / `step_batch_with_new` loop body:
advance the orbit, and bin the new point when it is inside the bounds
rectangle and its pixel lies inside the grid.  The returned flag is the
newly-lit report of this single step. -/
def stepOnce (s : ChaoticAccumulator) : ChaoticAccumulator × Bool :=
  if s.min_x ≤ (orbit_next s).1 ∧ (orbit_next s).1 ≤ s.max_x ∧
      s.min_y ≤ (orbit_next s).2 ∧ (orbit_next s).2 ≤ s.max_y then
    if (pixel_of s (orbit_next s).1 (orbit_next s).2).1 < s.width ∧
        (pixel_of s (orbit_next s).1 (orbit_next s).2).2 < s.height then
      let r := ChaoticAccumulator.increment_density
        { s with x := (orbit_next s).1, y := (orbit_next s).2 }
        ((pixel_of s (orbit_next s).1 (orbit_next s).2).2 * s.width +
          (pixel_of s (orbit_next s).1 (orbit_next s).2).1)
      (if r.2 then { r.1 with non_zero := r.1.non_zero + 1 } else r.1, r.2)
    else ({ s with x := (orbit_next s).1, y := (orbit_next s).2 }, false)
  else ({ s with x := (orbit_next s).1, y := (orbit_next s).2 }, false)

/-- `step_batch`: `n` loop iterations (state part; the returned stats are
`[x, y, 0, non_zero]`, recoverable from the state). -/
def step_batch : ℕ → ChaoticAccumulator → ChaoticAccumulator
  | 0, s => s
  | n + 1, s => step_batch n (s.stepOnce).1

/-- `step_batch_with_new`: same loop, also counting newly-lit pixels. -/
def step_batch_with_new : ℕ → ChaoticAccumulator → ChaoticAccumulator × ℕ
  | 0, s => (s, 0)
  | n + 1, s =>
      let r := s.stepOnce
      let rest := step_batch_with_new n r.1
      (rest.1, (if r.2 then 1 else 0) + rest.2)

/-- `density()`: export the full grid.  The dense branch is the stored
array; the sparse branch is the write-based reconstruction of the Rust
code, which (all stored columns being `< width`) equals this pointwise
read. -/
def density_export (s : ChaoticAccumulator) : List ℕ :=
  if s.use_chunked then (List.range (s.width * s.height)).map (fun idx => s.get_density idx)
  else s.density.getD []

end ChaoticAccumulator

/-! ## The Lyapunov pipeline over ℝ

`test_chaos` needs `sqrt` and `ln`, so this part of the embedding lives in
`ℝ` (necessarily noncomputable).  Division by zero and `ln 0` — which in
the Rust `f64` code produce `NaN` / `-∞` that poison the running sums and
make the final triple compare unequal to the sentinel — are tracked
explicitly: `TangentState` carries `nan1`/`nan2` flags (components of
`v1`/`v2` would be `NaN`), and the three running sums are `Option ℝ`,
`none` standing for a `-∞`- or `NaN`-valued `f64` sum. -/

noncomputable section

open scoped Classical

/-- Real-valued total quadratic evaluator (see `map_quadratic`). -/
def map_quadraticR (args : List ℝ) (x y : ℝ) : ℝ :=
  args.getD 0 0 + args.getD 1 0 * x + args.getD 2 0 * (x * x) +
    args.getD 3 0 * (x * y) + args.getD 4 0 * y + args.getD 5 0 * (y * y)

/-- Real-valued total cubic evaluator (see `map_cubic`). -/
def map_cubicR (args : List ℝ) (x y : ℝ) : ℝ :=
  args.getD 0 0 + args.getD 1 0 * x + args.getD 2 0 * x * x +
    args.getD 3 0 * x * x * x + args.getD 4 0 * x * x * y +
    args.getD 5 0 * x * y + args.getD 6 0 * x * y * y +
    args.getD 7 0 * y + args.getD 8 0 * y * y + args.getD 9 0 * y * y * y

/-- A concrete 2×2 real matrix (the Jacobian). -/
structure Mat2 where
  a11 : ℝ
  a12 : ℝ
  a21 : ℝ
  a22 : ℝ

/-- `FractalGenerator::mat_vec_mult`. -/
def mat_vec_mult (m : Mat2) (v : ℝ × ℝ) : ℝ × ℝ :=
  (m.a11 * v.1 + m.a12 * v.2, m.a21 * v.1 + m.a22 * v.2)

/-- `FractalGenerator::dot_product`. -/
def dot_product (v w : ℝ × ℝ) : ℝ :=
  v.1 * w.1 + v.2 * w.2

/-- `FractalGenerator::determinant`. -/
def determinant (m : Mat2) : ℝ :=
  m.a11 * m.a22 - m.a12 * m.a21

/-- `FractalGenerator::jacobian_quadratic`. -/
def jacobian_quadratic (args1 args2 : List ℝ) (x y : ℝ) : Mat2 :=
  let b1 := args1.getD 1 0
  let c1 := args1.getD 2 0
  let d1 := args1.getD 3 0
  let e1 := args1.getD 4 0
  let f1 := args1.getD 5 0
  let b2 := args2.getD 1 0
  let c2 := args2.getD 2 0
  let d2 := args2.getD 3 0
  let e2 := args2.getD 4 0
  let f2 := args2.getD 5 0
  { a11 := 2 * c1 * x + d1 * y + b1, a12 := d1 * x + 2 * f1 * y + e1,
    a21 := 2 * c2 * x + d2 * y + b2, a22 := d2 * x + 2 * f2 * y + e2 }

/-- `FractalGenerator::jacobian_cubic` (code's 1-based names `a2..a10`,
`b2..b10` are coefficient indices `1..9` here). -/
def jacobian_cubic (args1 args2 : List ℝ) (x y : ℝ) : Mat2 :=
  let a2 := args1.getD 1 0
  let a3 := args1.getD 2 0
  let a4 := args1.getD 3 0
  let a5 := args1.getD 4 0
  let a6 := args1.getD 5 0
  let a7 := args1.getD 6 0
  let a8 := args1.getD 7 0
  let a9 := args1.getD 8 0
  let a10 := args1.getD 9 0
  let b2 := args2.getD 1 0
  let b3 := args2.getD 2 0
  let b4 := args2.getD 3 0
  let b5 := args2.getD 4 0
  let b6 := args2.getD 5 0
  let b7 := args2.getD 6 0
  let b8 := args2.getD 7 0
  let b9 := args2.getD 8 0
  let b10 := args2.getD 9 0
  { a11 := a2 + 2 * a3 * x + 3 * a4 * (x * x) + 2 * a5 * y * x + a6 * y + a7 * (y * y),
    a12 := a5 * (x * x) + a6 * x + a7 * x * 2 * y + a8 + 2 * a9 * y + 3 * a10 * y * y,
    a21 := b2 + 2 * b3 * x + 3 * b4 * (x * x) + 2 * b5 * y * x + b6 * y + b7 * (y * y),
    a22 := b5 * (x * x) + b6 * x + b7 * x * 2 * y + b8 + 2 * b9 * y + 3 * b10 * y * y }

/-- Tangent basis of the Benettin iteration, with `NaN`-poison flags:
`nan1` (resp. `nan2`) holds when the `f64` components of `v1` (resp. `v2`)
would be `NaN`. -/
structure TangentState where
  v1x : ℝ
  v1y : ℝ
  v2x : ℝ
  v2y : ℝ
  nan1 : Prop
  nan2 : Prop

/-- One tangent update of `test_chaos` (identical in the transient and the
measurement phase): multiply both vectors by the Jacobian, orthogonalize
`v2` against `v1`, then divide `v1` by `√d11` and `v2` by `√d22`, where
`d22` is the dot product computed BEFORE the orthogonalization.  `d11 = 0`
makes the `0.0/0.0` coefficient `NaN` (poisoning both vectors); `d22 = 0`
makes the `v2` normalization `0.0/0.0`. -/
def tangent_step (m : Mat2) (t : TangentState) : TangentState :=
  let w1 := mat_vec_mult m (t.v1x, t.v1y)
  let w2 := mat_vec_mult m (t.v2x, t.v2y)
  let d11 := dot_product w1 w1
  let d12 := dot_product w1 w2
  let d22 := dot_product w2 w2
  let co := d12 / d11
  let u2x := w2.1 - co * w1.1
  let u2y := w2.2 - co * w1.2
  let s1 := Real.sqrt d11
  let s2 := Real.sqrt d22
  { v1x := w1.1 / s1, v1y := w1.2 / s1,
    v2x := u2x / s2, v2y := u2y / s2,
    nan1 := t.nan1 ∨ d11 = 0,
    nan2 := t.nan1 ∨ t.nan2 ∨ d11 = 0 ∨ d22 = 0 }

/-- Orbit update of `test_chaos` (also the body of `iterate_map`). -/
def chaos_next (args1 args2 : List ℝ) (is_cubic : Bool) (p : ℝ × ℝ) : ℝ × ℝ :=
  if is_cubic then (map_cubicR args1 p.1 p.2, map_cubicR args2 p.1 p.2)
  else (map_quadraticR args1 p.1 p.2, map_quadraticR args2 p.1 p.2)

/-- Degree-dispatched Jacobian, evaluated (as in the code) at the updated
point. -/
def jacobian_at (args1 args2 : List ℝ) (is_cubic : Bool) (x y : ℝ) : Mat2 :=
  if is_cubic then jacobian_cubic args1 args2 x y
  else jacobian_quadratic args1 args2 x y

/-- Orbit plus tangent basis. -/
structure ChaosState where
  x : ℝ
  y : ℝ
  ts : TangentState

/-- One iteration of the transient loop of `test_chaos` (no checks, no
accumulation). -/
def trans_step (args1 args2 : List ℝ) (is_cubic : Bool) (s : ChaosState) : ChaosState :=
  let p := chaos_next args1 args2 is_cubic (s.x, s.y)
  let m := jacobian_at args1 args2 is_cubic p.1 p.2
  { x := p.1, y := p.2, ts := tangent_step m s.ts }

/-- Measurement-phase state: orbit+tangent, the three running log-sums
(`none` = the `f64` sum is `-∞` or `NaN`, hence can no longer equal
`-1.0`), and the stuck counter. -/
structure MeasState where
  cs : ChaosState
  max_le : Option ℝ
  min_le : Option ℝ
  c_sum : Option ℝ
  cnt : ℕ

/-- Addition on the modeled sums: a poisoned summand stays poisoned. -/
def oadd : Option ℝ → Option ℝ → Option ℝ
  | some a, some b => some (a + b)
  | _, _ => none

/-- One iteration of the measurement loop of `test_chaos`: advance the
orbit, abort (`none`) on divergence, update the stuck counter and abort
when it reaches 15, otherwise update the tangent basis and accumulate
`ln √d11`, `ln √d22`, `ln |det J|`. -/
def meas_step (args1 args2 : List ℝ) (thresh : ℝ) (is_cubic : Bool) (s : MeasState) :
    Option MeasState :=
  let xp := s.cs.x
  let yp := s.cs.y
  let p := chaos_next args1 args2 is_cubic (xp, yp)
  let m := jacobian_at args1 args2 is_cubic p.1 p.2
  if |p.1| > thresh ∨ |p.2| > thresh then none
  else if (|p.1 - xp| < 1e-16 ∨ |p.2 - yp| < 1e-16) ∧ s.cnt + 1 ≥ 15 then none
  else
    let cnt2 := if |p.1 - xp| < 1e-16 ∨ |p.2 - yp| < 1e-16 then s.cnt + 1 else s.cnt - 1
    let t := s.cs.ts
    let w1 := mat_vec_mult m (t.v1x, t.v1y)
    let w2 := mat_vec_mult m (t.v2x, t.v2y)
    let d11 := dot_product w1 w1
    let d22 := dot_product w2 w2
    let maxTerm : Option ℝ := if t.nan1 ∨ d11 = 0 then none else some (Real.log (Real.sqrt d11))
    let minTerm : Option ℝ := if t.nan2 ∨ d22 = 0 then none else some (Real.log (Real.sqrt d22))
    let detTerm : Option ℝ :=
      if determinant m = 0 then none else some (Real.log |determinant m|)
    some { cs := { x := p.1, y := p.2, ts := tangent_step m t },
           max_le := oadd s.max_le maxTerm,
           min_le := oadd s.min_le minTerm,
           c_sum := oadd s.c_sum detTerm,
           cnt := cnt2 }

/-- The measurement loop; `none` is the early sentinel return. -/
def meas_loop (args1 args2 : List ℝ) (thresh : ℝ) (is_cubic : Bool) :
    ℕ → MeasState → Option MeasState
  | 0, s => some s
  | n + 1, s =>
      match meas_step args1 args2 thresh is_cubic s with
      | none => none
      | some s2 => meas_loop args1 args2 thresh is_cubic n s2

/-- Initial state of `test_chaos`: seed `(0.05, 0.05)`, tangent basis
`v1 = (1,0)`, `v2 = (0,1)`. -/
def init_chaos : ChaosState :=
  { x := 0.05, y := 0.05,
    ts := { v1x := 1, v1y := 0, v2x := 0, v2y := 1, nan1 := False, nan2 := False } }

/-- `FractalGenerator::test_chaos`: transient phase, then measurement
phase; an aborted measurement returns the sentinel `(-1, -1, -1)`,
otherwise each sum is divided by `n_test` and by `ln 2`. -/
def test_chaos (args1 args2 : List ℝ) (n_trans n_test : ℕ) (thresh : ℝ) (is_cubic : Bool) :
    Option ℝ × Option ℝ × Option ℝ :=
  let cs := (trans_step args1 args2 is_cubic)^[n_trans] init_chaos
  match meas_loop args1 args2 thresh is_cubic n_test
      { cs := cs, max_le := some 0, min_le := some 0, c_sum := some 0, cnt := 0 } with
  | none => (some (-1), some (-1), some (-1))
  | some s =>
      (s.max_le.map (fun v => v / (n_test : ℝ) / Real.log 2),
       s.min_le.map (fun v => v / (n_test : ℝ) / Real.log 2),
       s.c_sum.map (fun v => v / (n_test : ℝ) / Real.log 2))

/-- The orbit of `test_chaos` / `iterate_map` alone (the tangent data never
feeds back into it): iterate `k` of the map from the seed. -/
def orbit_iter (args1 args2 : List ℝ) (is_cubic : Bool) : ℕ → ℝ × ℝ
  | 0 => (0.05, 0.05)
  | n + 1 => chaos_next args1 args2 is_cubic (orbit_iter args1 args2 is_cubic n)

/-- The stuck counter after `k` measurement steps, as a pure recurrence on
the orbit: incremented when some coordinate moved less than `1e-16`,
otherwise decremented with floor 0. -/
def stuck_count (args1 args2 : List ℝ) (is_cubic : Bool) (n_trans : ℕ) : ℕ → ℕ
  | 0 => 0
  | k + 1 =>
      let pp := orbit_iter args1 args2 is_cubic (n_trans + k)
      let p := orbit_iter args1 args2 is_cubic (n_trans + k + 1)
      if |p.1 - pp.1| < 1e-16 ∨ |p.2 - pp.2| < 1e-16 then
        stuck_count args1 args2 is_cubic n_trans k + 1
      else stuck_count args1 args2 is_cubic n_trans k - 1

/-- The abort condition of measurement step `k+1` (0-based `k`): the new
point diverges past `thresh`, or the step barely moved and the stuck
counter thereby reaches 15. -/
def aborts_at (args1 args2 : List ℝ) (is_cubic : Bool) (n_trans : ℕ) (thresh : ℝ)
    (k : ℕ) : Prop :=
  let pp := orbit_iter args1 args2 is_cubic (n_trans + k)
  let p := orbit_iter args1 args2 is_cubic (n_trans + k + 1)
  |p.1| > thresh ∨ |p.2| > thresh ∨
    ((|p.1 - pp.1| < 1e-16 ∨ |p.2 - pp.2| < 1e-16) ∧
      stuck_count args1 args2 is_cubic n_trans (k + 1) ≥ 15)

/-- Some measurement step of `test_chaos` hits the divergence or
degeneracy abort. -/
def test_aborts (args1 args2 : List ℝ) (n_trans n_test : ℕ) (thresh : ℝ)
    (is_cubic : Bool) : Prop :=
  ∃ k < n_test, aborts_at args1 args2 is_cubic n_trans thresh k

end

/-! ## Shared small lemmas -/

theorem list_getD_set_self {α : Type} {l : List α} {i : ℕ} (v d : α) (h : i < l.length) :
    (l.set i v).getD i d = v := by
  simp [List.getD_eq_getElem?_getD, List.getElem?_set_self h]

theorem list_getD_set_ne {α : Type} {l : List α} {i j : ℕ} (v d : α) (h : i ≠ j) :
    (l.set i v).getD j d = l.getD j d := by
  simp [List.getD_eq_getElem?_getD, List.getElem?_set_ne h]

theorem list_getD_replicate {α : Type} (n j : ℕ) (a d : α) :
    (List.replicate n a).getD j d = if j < n then a else d := by
  simp [List.getD_eq_getElem?_getD, List.getElem?_replicate]
  split <;> simp

/-! ## C7: the Kaplan-Yorke dimension formula -/

/-- C7: for all finite `max_le`, `min_le`, `fractal_dimension` is 0 when
`max_le < 0`, otherwise `2 + s/|min_le|` when `s = max_le + min_le > 0`
and `1 + max_le/|min_le|` otherwise; in particular at `(0.5, -0.3)` it is
within `1e-9` of `2 + 0.2/0.3`. -/
theorem fractal_dimension_spec :
    (∀ a b : ℚ, fractal_dimension a b =
      if a < 0 then 0 else if a + b > 0 then 2 + (a + b) / |b| else 1 + a / |b|) ∧
    |fractal_dimension (1 / 2) (-(3 / 10)) - (2 + (1 / 5) / (3 / 10))| < 1 / 10 ^ 9 := by
  constructor
  · intro a b
    unfold fractal_dimension
    split_ifs with h1 h2
    · rfl
    · simp [if_pos h2]
    · simp [if_neg h2]
  · have habs : |(-(3 / 10) : ℚ)| = 3 / 10 := by
      rw [abs_neg]
      norm_num [abs_of_nonneg]
    norm_num [fractal_dimension, habs]

/-! ## C8: classifier exclusion rules -/

/-- C8: given a non-sentinel spectrum, a quadratic trial is accepted iff
neither `max_le ≤ 1e-4` nor `|dim - 1| < 0.11` holds, and a cubic trial is
accepted iff additionally `|dim - 2| < 0.11` fails; rejection is exactly
the complement. -/
theorem exclusion_rules_spec (max_le min_le c : ℚ) (h : max_le ≠ -1) :
    (trial_accepted false max_le min_le c = true ↔
      ¬(max_le ≤ 1e-4 ∨ |fractal_dimension max_le min_le - 1| < 0.11)) ∧
    (trial_accepted true max_le min_le c = true ↔
      ¬(max_le ≤ 1e-4 ∨ |fractal_dimension max_le min_le - 1| < 0.11 ∨
        |fractal_dimension max_le min_le - 2| < 0.11)) := by
  constructor
  · simp [trial_accepted, exclude_quadratic, if_neg h, not_or]
  · simp [trial_accepted, exclude_cubic, if_neg h, not_or, and_assoc]

/-- C8 witness: a spectrum `(1/2, -3/10)` is non-sentinel and accepted in
the quadratic regime (its dimension 8/3 is far from 1), and rejected in
the cubic regime is false as well since 8/3 is 0.11-far from both 1 and
2. -/
theorem exclusion_rules_spec_witness :
    ((1 : ℚ) / 2 ≠ -1) ∧
      (trial_accepted false (1 / 2) (-(3 / 10)) 0 = true ↔
        ¬((1 : ℚ) / 2 ≤ 1e-4 ∨ |fractal_dimension (1 / 2) (-(3 / 10)) - 1| < 0.11)) := by
  exact ⟨by norm_num, (exclusion_rules_spec (1 / 2) (-(3 / 10)) 0 (by norm_num)).1⟩

/-! ## C5: panics at the boundary -/

/-- C5 counterexample: the map evaluators reached from the boundary with
an empty coefficient vector hit the index-out-of-bounds branch (a Rust
panic), rather than substituting a safe default. -/
theorem map_evaluators_panic_on_short_input :
    map_quadratic_checked ([] : List ℚ) 0 0 = none ∧
      map_cubic_checked ([] : List ℚ) 0 0 = none :=
  ⟨rfl, rfl⟩

/-- C5 amended: with at least 6 (quadratic) resp. 10 (cubic) coefficients
the evaluators (and hence `step_batch`, which only touches coefficients
through them) cannot panic: the checked evaluator returns `some` and
agrees with the total evaluator.  With fewer coefficients the evaluators
panic (see the counterexample); no safe default is substituted. -/
theorem map_evaluators_no_panic_of_arity :
    (∀ (args : List ℚ) (x y : ℚ), 6 ≤ args.length →
      map_quadratic_checked args x y = some (map_quadratic args x y)) ∧
    (∀ (args : List ℚ) (x y : ℚ), 10 ≤ args.length →
      map_cubic_checked args x y = some (map_cubic args x y)) := by
  constructor
  · intro args x y h
    rcases args with _ | ⟨a, _ | ⟨b, _ | ⟨c, _ | ⟨d, _ | ⟨e, _ | ⟨f, rest⟩⟩⟩⟩⟩⟩ <;>
      simp_all [map_quadratic_checked, map_quadratic]
  · intro args x y h
    rcases args with _ | ⟨a0, _ | ⟨a1, _ | ⟨a2, _ | ⟨a3, _ | ⟨a4, _ |
      ⟨a5, _ | ⟨a6, _ | ⟨a7, _ | ⟨a8, _ | ⟨a9, rest⟩⟩⟩⟩⟩⟩⟩⟩⟩⟩ <;>
      simp_all [map_cubic_checked, map_cubic]

/-- C5 amended witness: concrete 6- and 10-element coefficient vectors. -/
theorem map_evaluators_no_panic_of_arity_witness :
    (6 ≤ ([1, 2, 3, 4, 5, 6] : List ℚ).length) ∧
      map_quadratic_checked ([1, 2, 3, 4, 5, 6] : List ℚ) 2 3 =
        some (map_quadratic ([1, 2, 3, 4, 5, 6] : List ℚ) 2 3) :=
  ⟨by decide, map_evaluators_no_panic_of_arity.1 [1, 2, 3, 4, 5, 6] 2 3 (by decide)⟩

/-! ## C3: batch continuity -/

theorem step_batch_add_state (m n : ℕ) (s : ChaoticAccumulator) :
    ChaoticAccumulator.step_batch (m + n) s =
      ChaoticAccumulator.step_batch n (ChaoticAccumulator.step_batch m s) := by
  induction m generalizing s with
  | zero => simp [ChaoticAccumulator.step_batch]
  | succ k ih =>
      have hs : k + 1 + n = (k + n) + 1 := by omega
      rw [hs]
      show ChaoticAccumulator.step_batch (k + n) (s.stepOnce).1 = _
      rw [ih]
      rfl

/-- C3: for every accumulator state and all batch sizes `m`, `n`, one
`step_batch (m+n)` call and the sequence `step_batch m; step_batch n`
yield the same final orbit position and the same exported density grid
(indeed the same full state); `stepBatch 1000` versus two `stepBatch 500`
calls is the instance `m = n = 500`. -/
theorem step_batch_continuity (m n : ℕ) (s : ChaoticAccumulator) :
    (ChaoticAccumulator.step_batch (m + n) s).x =
        (ChaoticAccumulator.step_batch n (ChaoticAccumulator.step_batch m s)).x ∧
      (ChaoticAccumulator.step_batch (m + n) s).y =
        (ChaoticAccumulator.step_batch n (ChaoticAccumulator.step_batch m s)).y ∧
      (ChaoticAccumulator.step_batch (m + n) s).density_export =
        (ChaoticAccumulator.step_batch n (ChaoticAccumulator.step_batch m s)).density_export := by
  rw [step_batch_add_state]
  exact ⟨rfl, rfl, rfl⟩

/-! ## C9: bounds dropping -/

/-- C9: when the point produced by one orbit step lies outside the bounds
rectangle, or its pixel coordinates lie outside `[0,width)×[0,height)`,
the step modifies no density cell (both backings untouched) and leaves
both the newly-lit report of the step and the cumulative non-zero count
unchanged; the point is dropped without an error branch. -/
theorem bounds_dropping (s : ChaoticAccumulator)
    (h : ¬(s.min_x ≤ (s.orbit_next).1 ∧ (s.orbit_next).1 ≤ s.max_x ∧
            s.min_y ≤ (s.orbit_next).2 ∧ (s.orbit_next).2 ≤ s.max_y) ∨
          ¬((s.pixel_of (s.orbit_next).1 (s.orbit_next).2).1 < s.width ∧
            (s.pixel_of (s.orbit_next).1 (s.orbit_next).2).2 < s.height)) :
    (s.stepOnce).1.density = s.density ∧
      (s.stepOnce).1.sparse_rows = s.sparse_rows ∧
      (s.stepOnce).1.non_zero = s.non_zero ∧
      (s.stepOnce).2 = false := by
  unfold ChaoticAccumulator.stepOnce
  by_cases h1 : s.min_x ≤ (s.orbit_next).1 ∧ (s.orbit_next).1 ≤ s.max_x ∧
      s.min_y ≤ (s.orbit_next).2 ∧ (s.orbit_next).2 ≤ s.max_y
  · have h2 := h.resolve_left (not_not_intro h1)
    rw [if_pos h1, if_neg h2]
    exact ⟨rfl, rfl, rfl, rfl⟩
  · rw [if_neg h1]
    exact ⟨rfl, rfl, rfl, rfl⟩

/-- C9 witness: a quadratic map with constant value 10 on both coordinates
leaves the bounds square `[0,1]×[0,1]` in one step from `(1/2, 1/2)`, and
that step touches neither the density grid nor the non-zero counter. -/
theorem bounds_dropping_witness :
    (¬((ChaoticAccumulator.mkWith false [10, 0, 0, 0, 0, 0] [10, 0, 0, 0, 0, 0]
          false 2 2 0 1 0 1 (1 / 2) (1 / 2)).min_x ≤
          ((ChaoticAccumulator.mkWith false [10, 0, 0, 0, 0, 0] [10, 0, 0, 0, 0, 0]
            false 2 2 0 1 0 1 (1 / 2) (1 / 2)).orbit_next).1 ∧
        ((ChaoticAccumulator.mkWith false [10, 0, 0, 0, 0, 0] [10, 0, 0, 0, 0, 0]
          false 2 2 0 1 0 1 (1 / 2) (1 / 2)).orbit_next).1 ≤
          (ChaoticAccumulator.mkWith false [10, 0, 0, 0, 0, 0] [10, 0, 0, 0, 0, 0]
            false 2 2 0 1 0 1 (1 / 2) (1 / 2)).max_x ∧
        (ChaoticAccumulator.mkWith false [10, 0, 0, 0, 0, 0] [10, 0, 0, 0, 0, 0]
          false 2 2 0 1 0 1 (1 / 2) (1 / 2)).min_y ≤
          ((ChaoticAccumulator.mkWith false [10, 0, 0, 0, 0, 0] [10, 0, 0, 0, 0, 0]
            false 2 2 0 1 0 1 (1 / 2) (1 / 2)).orbit_next).2 ∧
        ((ChaoticAccumulator.mkWith false [10, 0, 0, 0, 0, 0] [10, 0, 0, 0, 0, 0]
          false 2 2 0 1 0 1 (1 / 2) (1 / 2)).orbit_next).2 ≤
          (ChaoticAccumulator.mkWith false [10, 0, 0, 0, 0, 0] [10, 0, 0, 0, 0, 0]
            false 2 2 0 1 0 1 (1 / 2) (1 / 2)).max_y)) ∧
      ((ChaoticAccumulator.mkWith false [10, 0, 0, 0, 0, 0] [10, 0, 0, 0, 0, 0]
          false 2 2 0 1 0 1 (1 / 2) (1 / 2)).stepOnce).2 = false := by
  have hout : ¬((ChaoticAccumulator.mkWith false [10, 0, 0, 0, 0, 0] [10, 0, 0, 0, 0, 0]
      false 2 2 0 1 0 1 (1 / 2) (1 / 2)).min_x ≤
        ((ChaoticAccumulator.mkWith false [10, 0, 0, 0, 0, 0] [10, 0, 0, 0, 0, 0]
          false 2 2 0 1 0 1 (1 / 2) (1 / 2)).orbit_next).1 ∧
      ((ChaoticAccumulator.mkWith false [10, 0, 0, 0, 0, 0] [10, 0, 0, 0, 0, 0]
        false 2 2 0 1 0 1 (1 / 2) (1 / 2)).orbit_next).1 ≤
        (ChaoticAccumulator.mkWith false [10, 0, 0, 0, 0, 0] [10, 0, 0, 0, 0, 0]
          false 2 2 0 1 0 1 (1 / 2) (1 / 2)).max_x ∧
      (ChaoticAccumulator.mkWith false [10, 0, 0, 0, 0, 0] [10, 0, 0, 0, 0, 0]
        false 2 2 0 1 0 1 (1 / 2) (1 / 2)).min_y ≤
        ((ChaoticAccumulator.mkWith false [10, 0, 0, 0, 0, 0] [10, 0, 0, 0, 0, 0]
          false 2 2 0 1 0 1 (1 / 2) (1 / 2)).orbit_next).2 ∧
      ((ChaoticAccumulator.mkWith false [10, 0, 0, 0, 0, 0] [10, 0, 0, 0, 0, 0]
        false 2 2 0 1 0 1 (1 / 2) (1 / 2)).orbit_next).2 ≤
        (ChaoticAccumulator.mkWith false [10, 0, 0, 0, 0, 0] [10, 0, 0, 0, 0, 0]
          false 2 2 0 1 0 1 (1 / 2) (1 / 2)).max_y) := by
    norm_num [ChaoticAccumulator.mkWith, ChaoticAccumulator.orbit_next, map_quadratic]
  exact ⟨hout, (bounds_dropping _ (Or.inl hout)).2.2.2⟩

/-! ## Reduction lemmas for the two density backings -/

theorem get_density_dense (s : ChaoticAccumulator) (hch : s.use_chunked = false) (j : ℕ) :
    s.get_density j = (s.density.getD []).getD j 0 := by
  simp [ChaoticAccumulator.get_density, hch]

theorem get_density_sparse (s : ChaoticAccumulator) {rows : List (ℕ → Option ℕ)}
    (hch : s.use_chunked = true) (hrows : s.sparse_rows = some rows) (hw : s.width ≠ 0)
    (j : ℕ) :
    s.get_density j =
      if j / s.width < rows.length then
        ((rows.getD (j / s.width) (fun _ => none)) (j % s.width)).getD 0
      else 0 := by
  simp [ChaoticAccumulator.get_density, hch, hrows, hw]

theorem increment_density_dense (s : ChaoticAccumulator) (hch : s.use_chunked = false)
    (i : ℕ) :
    s.increment_density i =
      (s.set_density i
        (if s.get_density i = U16_MAX then U16_MAX else min (s.get_density i + 1) U16_MAX),
       decide (s.get_density i = 0)) := by
  simp [ChaoticAccumulator.increment_density, hch]

theorem set_density_dense (s : ChaoticAccumulator) (hch : s.use_chunked = false)
    (i v : ℕ) :
    s.set_density i v =
      match s.density with
      | some d => if i < d.length then { s with density := some (d.set i v) } else s
      | none => s := by
  simp [ChaoticAccumulator.set_density, hch]

theorem increment_density_sparse_none (s : ChaoticAccumulator) (hch : s.use_chunked = true)
    (hrows : s.sparse_rows = none) (i : ℕ) :
    s.increment_density i = (s, false) := by
  simp [ChaoticAccumulator.increment_density, hch, hrows]

theorem increment_density_sparse_w0 (s : ChaoticAccumulator) {rows : List (ℕ → Option ℕ)}
    (hch : s.use_chunked = true) (hrows : s.sparse_rows = some rows) (hw : s.width = 0)
    (i : ℕ) :
    s.increment_density i = (s, false) := by
  simp [ChaoticAccumulator.increment_density, hch, hrows, hw]

theorem increment_density_sparse_oob (s : ChaoticAccumulator) {rows : List (ℕ → Option ℕ)}
    (hch : s.use_chunked = true) (hrows : s.sparse_rows = some rows) (hw : s.width ≠ 0)
    {i : ℕ} (hge : ¬ i / s.width < rows.length) :
    s.increment_density i = (s, false) := by
  simp [ChaoticAccumulator.increment_density, hch, hrows, hw, hge]

theorem increment_density_sparse_active (s : ChaoticAccumulator)
    {rows : List (ℕ → Option ℕ)} (hch : s.use_chunked = true)
    (hrows : s.sparse_rows = some rows) (hw : s.width ≠ 0) {i : ℕ}
    (hlt : i / s.width < rows.length) :
    s.increment_density i =
      match (rows.getD (i / s.width) (fun _ => none)) (i % s.width) with
      | some v =>
          ({ s with sparse_rows := some (rows.set (i / s.width) (fun c =>
              if c = i % s.width then some (if v < U16_MAX then min (v + 1) U16_MAX else v)
              else (rows.getD (i / s.width) (fun _ => none)) c)) }, false)
      | none =>
          ({ s with sparse_rows := some (rows.set (i / s.width) (fun c =>
              if c = i % s.width then some 1
              else (rows.getD (i / s.width) (fun _ => none)) c)) }, true) := by
  simp only [ChaoticAccumulator.increment_density, hch, if_true, hrows, hw, if_false, hlt,
    if_pos, eq_self_iff_true]


theorem get_density_update_sparse (s : ChaoticAccumulator) (rows2 : List (ℕ → Option ℕ))
    (j : ℕ) (hch : s.use_chunked = true) (hw : s.width ≠ 0) :
    ({ s with sparse_rows := some rows2 } : ChaoticAccumulator).get_density j =
      if j / s.width < rows2.length then
        ((rows2.getD (j / s.width) (fun _ => none)) (j % s.width)).getD 0
      else 0 := by
  simp [ChaoticAccumulator.get_density, hch, hw]

theorem get_density_update_dense (s : ChaoticAccumulator) (d2 : List ℕ) (j : ℕ)
    (hch : s.use_chunked = false) :
    ({ s with density := some d2 } : ChaoticAccumulator).get_density j = d2.getD j 0 := by
  simp [ChaoticAccumulator.get_density, hch]

theorem set_density_dense_some (s : ChaoticAccumulator) (hch : s.use_chunked = false)
    {d : List ℕ} (hd : s.density = some d) (i v : ℕ) :
    s.set_density i v =
      if i < d.length then { s with density := some (d.set i v) } else s := by
  simp [ChaoticAccumulator.set_density, hch, hd]

theorem set_density_dense_none (s : ChaoticAccumulator) (hch : s.use_chunked = false)
    (hd : s.density = none) (i v : ℕ) :
    s.set_density i v = s := by
  simp [ChaoticAccumulator.set_density, hch, hd]

theorem increment_density_frame (s : ChaoticAccumulator) (i : ℕ) :
    ((s.increment_density i).1).use_chunked = s.use_chunked ∧
      ((s.increment_density i).1).width = s.width ∧
      ((s.increment_density i).1).height = s.height ∧
      ((s.increment_density i).1).non_zero = s.non_zero := by
  by_cases hch : s.use_chunked = true
  · rcases hrows : s.sparse_rows with _ | rows
    · rw [increment_density_sparse_none s hch hrows]
      exact ⟨rfl, rfl, rfl, rfl⟩
    · by_cases hw : s.width = 0
      · rw [increment_density_sparse_w0 s hch hrows hw]
        exact ⟨rfl, rfl, rfl, rfl⟩
      · by_cases hlt : i / s.width < rows.length
        · rw [increment_density_sparse_active s hch hrows hw hlt]
          rcases (rows.getD (i / s.width) (fun _ => none)) (i % s.width) with _ | v <;>
            exact ⟨rfl, rfl, rfl, rfl⟩
        · rw [increment_density_sparse_oob s hch hrows hw hlt]
          exact ⟨rfl, rfl, rfl, rfl⟩
  · have hch2 : s.use_chunked = false := by simpa using hch
    rw [increment_density_dense s hch2]
    show ((s.set_density i _).use_chunked = s.use_chunked) ∧ _
    rcases hd : s.density with _ | d
    · rw [set_density_dense_none s hch2 hd]
      exact ⟨rfl, rfl, rfl, rfl⟩
    · rw [set_density_dense_some s hch2 hd]
      by_cases hlen : i < d.length
      · rw [if_pos hlen]
        exact ⟨rfl, rfl, rfl, rfl⟩
      · rw [if_neg hlen]
        exact ⟨rfl, rfl, rfl, rfl⟩

theorem inc_get_dense (s : ChaoticAccumulator) (hch : s.use_chunked = false) (i j : ℕ) :
    ((s.increment_density i).1).get_density j =
      if j = i ∧ i < (s.density.getD []).length then
        (if s.get_density i = U16_MAX then U16_MAX else min (s.get_density i + 1) U16_MAX)
      else s.get_density j := by
  rw [increment_density_dense s hch]
  show (s.set_density i _).get_density j = _
  rcases hd : s.density with _ | d
  · rw [set_density_dense_none s hch hd]
    rw [if_neg (by simp [hd])]
  · rw [set_density_dense_some s hch hd]
    by_cases hlen : i < d.length
    · rw [if_pos hlen, get_density_update_dense _ _ _ hch]
      by_cases hji : j = i
      · subst hji
        rw [list_getD_set_self _ 0 hlen]
        simp [hlen]
      · rw [list_getD_set_ne _ 0 (Ne.symm hji),
          if_neg (fun hc => hji hc.1), get_density_dense s hch, hd]
        rfl
    · rw [if_neg hlen, if_neg (by simp [hd]; omega)]

theorem inc_flag_dense (s : ChaoticAccumulator) (hch : s.use_chunked = false) (i : ℕ) :
    (s.increment_density i).2 = decide (s.get_density i = 0) := by
  rw [increment_density_dense s hch]

theorem inc_get_sparse (s : ChaoticAccumulator) {rows : List (ℕ → Option ℕ)}
    (hch : s.use_chunked = true) (hrows : s.sparse_rows = some rows) (i j : ℕ) :
    ((s.increment_density i).1).get_density j =
      if j = i ∧ s.width ≠ 0 ∧ i / s.width < rows.length then
        (match (rows.getD (i / s.width) (fun _ => none)) (i % s.width) with
         | none => 1
         | some v => if v < U16_MAX then min (v + 1) U16_MAX else v)
      else s.get_density j := by
  by_cases hw : s.width = 0
  · rw [increment_density_sparse_w0 s hch hrows hw,
      if_neg (fun hc => hc.2.1 hw)]
  · by_cases hlt : i / s.width < rows.length
    · rw [increment_density_sparse_active s hch hrows hw hlt]
      rcases hcol : (rows.getD (i / s.width) (fun _ => none)) (i % s.width) with _ | v
      · show ({ s with sparse_rows := _ } : ChaoticAccumulator).get_density j = _
        rw [get_density_update_sparse _ _ _ hch hw, List.length_set]
        by_cases hji : j = i
        · subst hji
          rw [if_pos hlt, list_getD_set_self _ _ hlt]
          simp [hw, hlt]
        · rw [if_neg (show ¬(j = i ∧ s.width ≠ 0 ∧ i / s.width < rows.length) from
            fun hc => hji hc.1)]
          by_cases hjlt : j / s.width < rows.length
          · rw [if_pos hjlt, get_density_sparse s hch hrows hw j, if_pos hjlt]
            by_cases hrow : j / s.width = i / s.width
            · rw [hrow, list_getD_set_self _ _ hlt]
              have hcne : ¬ j % s.width = i % s.width := by
                intro hc
                apply hji
                rw [← Nat.div_add_mod j s.width, ← Nat.div_add_mod i s.width, hrow, hc]
              simp only [if_neg hcne]
            · rw [list_getD_set_ne _ _ (fun hc => hrow hc.symm)]
          · rw [if_neg hjlt, get_density_sparse s hch hrows hw j, if_neg hjlt]
      · show ({ s with sparse_rows := _ } : ChaoticAccumulator).get_density j = _
        rw [get_density_update_sparse _ _ _ hch hw, List.length_set]
        by_cases hji : j = i
        · subst hji
          rw [if_pos hlt, list_getD_set_self _ _ hlt]
          simp [hw, hlt]
        · rw [if_neg (show ¬(j = i ∧ s.width ≠ 0 ∧ i / s.width < rows.length) from
            fun hc => hji hc.1)]
          by_cases hjlt : j / s.width < rows.length
          · rw [if_pos hjlt, get_density_sparse s hch hrows hw j, if_pos hjlt]
            by_cases hrow : j / s.width = i / s.width
            · rw [hrow, list_getD_set_self _ _ hlt]
              have hcne : ¬ j % s.width = i % s.width := by
                intro hc
                apply hji
                rw [← Nat.div_add_mod j s.width, ← Nat.div_add_mod i s.width, hrow, hc]
              simp only [if_neg hcne]
            · rw [list_getD_set_ne _ _ (fun hc => hrow hc.symm)]
          · rw [if_neg hjlt, get_density_sparse s hch hrows hw j, if_neg hjlt]
    · rw [increment_density_sparse_oob s hch hrows hw hlt,
        if_neg (fun hc => hlt hc.2.2)]

theorem inc_flag_sparse (s : ChaoticAccumulator) {rows : List (ℕ → Option ℕ)}
    (hch : s.use_chunked = true) (hrows : s.sparse_rows = some rows) (i : ℕ) :
    (s.increment_density i).2 =
      decide (s.width ≠ 0 ∧ i / s.width < rows.length ∧
        (rows.getD (i / s.width) (fun _ => none)) (i % s.width) = none) := by
  by_cases hw : s.width = 0
  · rw [increment_density_sparse_w0 s hch hrows hw]
    simp [hw]
  · by_cases hlt : i / s.width < rows.length
    · rw [increment_density_sparse_active s hch hrows hw hlt]
      rcases hcol : (rows.getD (i / s.width) (fun _ => none)) (i % s.width) with _ | v <;>
        simp [hw, hlt, hcol]
    · rw [increment_density_sparse_oob s hch hrows hw hlt]
      simp [hlt]

/-! ## C6: saturating, monotone cell counts -/

theorem inc_get_bounds (s : ChaoticAccumulator)
    (hcap : ∀ j2, s.get_density j2 ≤ U16_MAX) (i j : ℕ) :
    s.get_density j ≤ ((s.increment_density i).1).get_density j ∧
      ((s.increment_density i).1).get_density j ≤ U16_MAX := by
  by_cases hch : s.use_chunked = true
  · rcases hrows : s.sparse_rows with _ | rows
    · rw [increment_density_sparse_none s hch hrows]
      exact ⟨le_rfl, hcap j⟩
    · rw [inc_get_sparse s hch hrows i j]
      by_cases hcond : j = i ∧ s.width ≠ 0 ∧ i / s.width < rows.length
      · rw [if_pos hcond]
        obtain ⟨hji, hw, hlt⟩ := hcond
        subst hji
        rcases hcol : (rows.getD (j / s.width) (fun _ => none)) (j % s.width) with _ | v
        · have hget : s.get_density j = 0 := by
            rw [get_density_sparse s hch hrows hw j, if_pos hlt, hcol]
            rfl
          rw [hget]
          exact ⟨Nat.zero_le _, by norm_num [U16_MAX]⟩
        · have hget : s.get_density j = v := by
            rw [get_density_sparse s hch hrows hw j, if_pos hlt, hcol]
            rfl
          have hv := hcap j
          rw [hget] at hv ⊢
          have hred : (match some v with
              | none => 1
              | some v => if v < U16_MAX then min (v + 1) U16_MAX else v) =
              if v < U16_MAX then min (v + 1) U16_MAX else v := rfl
          rw [hred]
          refine ⟨?_, ?_⟩ <;> split_ifs with hvm <;> omega
      · rw [if_neg hcond]
        exact ⟨le_rfl, hcap j⟩
  · have hch2 : s.use_chunked = false := by simpa using hch
    rw [inc_get_dense s hch2 i j]
    by_cases hcond : j = i ∧ i < (s.density.getD []).length
    · rw [if_pos hcond]
      obtain ⟨hji, hlen⟩ := hcond
      subst hji
      have hv := hcap j
      refine ⟨?_, ?_⟩ <;> split_ifs with hm <;> omega
    · rw [if_neg hcond]
      exact ⟨le_rfl, hcap j⟩

/-- Fold of `increment_density` over a list of cell indices: the abstract
sequence of cell-increment operations of the claim. -/
def apply_incs (s : ChaoticAccumulator) (ops : List ℕ) : ChaoticAccumulator :=
  ops.foldl (fun t i => (t.increment_density i).1) s

/-- C6: in either backing, starting from any state whose cells respect the
`u16` cap, any sequence of increments leaves every cell monotonically
nondecreasing and capped at 65535; a cell already at 65535 stays at
exactly 65535 (no wraparound). -/
theorem saturating_monotone_counts (s : ChaoticAccumulator)
    (hcap : ∀ j2, s.get_density j2 ≤ U16_MAX) (ops : List ℕ) (j : ℕ) :
    s.get_density j ≤ (apply_incs s ops).get_density j ∧
      (apply_incs s ops).get_density j ≤ U16_MAX ∧
      (s.get_density j = U16_MAX → (apply_incs s ops).get_density j = U16_MAX) := by
  induction ops generalizing s with
  | nil => exact ⟨le_rfl, hcap j, fun h => h⟩
  | cons op ops ih =>
      have hstep := fun j2 => inc_get_bounds s hcap op j2
      have hcap2 : ∀ j2, ((s.increment_density op).1).get_density j2 ≤ U16_MAX :=
        fun j2 => (hstep j2).2
      have hrec := ih ((s.increment_density op).1) hcap2
      refine ⟨le_trans (hstep j).1 hrec.1, hrec.2.1, fun hmax => ?_⟩
      have h1 : ((s.increment_density op).1).get_density j = U16_MAX :=
        le_antisymm (hstep j).2 (hmax ▸ (hstep j).1)
      exact hrec.2.2 h1

theorem get_density_mkWith (f : Bool) (xp yp : List ℚ) (ic : Bool) (w h : ℕ)
    (ax bx ay b2 sx sy : ℚ) (j : ℕ) :
    (ChaoticAccumulator.mkWith f xp yp ic w h ax bx ay b2 sx sy).get_density j = 0 := by
  cases f <;>
    simp [ChaoticAccumulator.mkWith, ChaoticAccumulator.get_density, list_getD_replicate]

/-- C6 witness: the fresh 2×2 dense accumulator is capped, and three
increments of cell 0 keep cell 0 monotone. -/
theorem saturating_monotone_counts_witness :
    (∀ j2, (ChaoticAccumulator.mkWith false [] [] false 2 2 0 1 0 1 0 0).get_density j2 ≤
      U16_MAX) ∧
      (ChaoticAccumulator.mkWith false [] [] false 2 2 0 1 0 1 0 0).get_density 0 ≤
        (apply_incs (ChaoticAccumulator.mkWith false [] [] false 2 2 0 1 0 1 0 0)
          [0, 0, 1]).get_density 0 := by
  have hcap : ∀ j2, (ChaoticAccumulator.mkWith false ([] : List ℚ) [] false 2 2 0 1 0 1
      0 0).get_density j2 ≤ U16_MAX := by
    intro j2
    rw [get_density_mkWith]
    exact Nat.zero_le _
  exact ⟨hcap, (saturating_monotone_counts _ hcap [0, 0, 1] 0).1⟩

/-! ## C2: dense/sparse backing equivalence -/

theorem stepOnce_out_rect (s : ChaoticAccumulator)
    (h : ¬(s.min_x ≤ (s.orbit_next).1 ∧ (s.orbit_next).1 ≤ s.max_x ∧
      s.min_y ≤ (s.orbit_next).2 ∧ (s.orbit_next).2 ≤ s.max_y)) :
    s.stepOnce = ({ s with x := (s.orbit_next).1, y := (s.orbit_next).2 }, false) := by
  unfold ChaoticAccumulator.stepOnce
  rw [if_neg h]

theorem stepOnce_out_pix (s : ChaoticAccumulator)
    (h1 : s.min_x ≤ (s.orbit_next).1 ∧ (s.orbit_next).1 ≤ s.max_x ∧
      s.min_y ≤ (s.orbit_next).2 ∧ (s.orbit_next).2 ≤ s.max_y)
    (h2 : ¬((s.pixel_of (s.orbit_next).1 (s.orbit_next).2).1 < s.width ∧
      (s.pixel_of (s.orbit_next).1 (s.orbit_next).2).2 < s.height)) :
    s.stepOnce = ({ s with x := (s.orbit_next).1, y := (s.orbit_next).2 }, false) := by
  unfold ChaoticAccumulator.stepOnce
  rw [if_pos h1, if_neg h2]

theorem stepOnce_bin (s : ChaoticAccumulator)
    (h1 : s.min_x ≤ (s.orbit_next).1 ∧ (s.orbit_next).1 ≤ s.max_x ∧
      s.min_y ≤ (s.orbit_next).2 ∧ (s.orbit_next).2 ≤ s.max_y)
    (h2 : (s.pixel_of (s.orbit_next).1 (s.orbit_next).2).1 < s.width ∧
      (s.pixel_of (s.orbit_next).1 (s.orbit_next).2).2 < s.height) :
    s.stepOnce =
      (if (ChaoticAccumulator.increment_density
            { s with x := (s.orbit_next).1, y := (s.orbit_next).2 }
            ((s.pixel_of (s.orbit_next).1 (s.orbit_next).2).2 * s.width +
              (s.pixel_of (s.orbit_next).1 (s.orbit_next).2).1)).2 then
        { (ChaoticAccumulator.increment_density
            { s with x := (s.orbit_next).1, y := (s.orbit_next).2 }
            ((s.pixel_of (s.orbit_next).1 (s.orbit_next).2).2 * s.width +
              (s.pixel_of (s.orbit_next).1 (s.orbit_next).2).1)).1 with
          non_zero := (ChaoticAccumulator.increment_density
            { s with x := (s.orbit_next).1, y := (s.orbit_next).2 }
            ((s.pixel_of (s.orbit_next).1 (s.orbit_next).2).2 * s.width +
              (s.pixel_of (s.orbit_next).1 (s.orbit_next).2).1)).1.non_zero + 1 }
      else (ChaoticAccumulator.increment_density
            { s with x := (s.orbit_next).1, y := (s.orbit_next).2 }
            ((s.pixel_of (s.orbit_next).1 (s.orbit_next).2).2 * s.width +
              (s.pixel_of (s.orbit_next).1 (s.orbit_next).2).1)).1,
       (ChaoticAccumulator.increment_density
            { s with x := (s.orbit_next).1, y := (s.orbit_next).2 }
            ((s.pixel_of (s.orbit_next).1 (s.orbit_next).2).2 * s.width +
              (s.pixel_of (s.orbit_next).1 (s.orbit_next).2).1)).2) := by
  unfold ChaoticAccumulator.stepOnce
  rw [if_pos h1, if_pos h2]

/-- Coupling between a dense-backed and a sparse-backed accumulator.  The
two states share all scalar data, the dense side owns a well-sized array,
the sparse side well-sized rows, and the two grids agree pointwise (with
the `u16` cap that every reachable state satisfies). -/
def DenseSparseCoupled (sd ss : ChaoticAccumulator) : Prop :=
  sd.use_chunked = false ∧ ss.use_chunked = true ∧
    sd.x_params = ss.x_params ∧ sd.y_params = ss.y_params ∧
    sd.is_cubic = ss.is_cubic ∧
    sd.width = ss.width ∧ sd.height = ss.height ∧
    sd.min_x = ss.min_x ∧ sd.max_x = ss.max_x ∧
    sd.min_y = ss.min_y ∧ sd.max_y = ss.max_y ∧
    sd.x = ss.x ∧ sd.y = ss.y ∧
    (∃ d, sd.density = some d ∧ d.length = sd.width * sd.height) ∧
    (∃ rows, ss.sparse_rows = some rows ∧ rows.length = ss.height) ∧
    (∀ i, i < sd.width * sd.height →
      sd.get_density i = ss.get_density i ∧ sd.get_density i ≤ U16_MAX)

theorem increment_density_frame_full (s : ChaoticAccumulator) (i : ℕ) :
    ((s.increment_density i).1).x_params = s.x_params ∧
      ((s.increment_density i).1).y_params = s.y_params ∧
      ((s.increment_density i).1).is_cubic = s.is_cubic ∧
      ((s.increment_density i).1).width = s.width ∧
      ((s.increment_density i).1).height = s.height ∧
      ((s.increment_density i).1).min_x = s.min_x ∧
      ((s.increment_density i).1).max_x = s.max_x ∧
      ((s.increment_density i).1).min_y = s.min_y ∧
      ((s.increment_density i).1).max_y = s.max_y ∧
      ((s.increment_density i).1).x = s.x ∧
      ((s.increment_density i).1).y = s.y ∧
      ((s.increment_density i).1).use_chunked = s.use_chunked := by
  by_cases hch : s.use_chunked = true
  · rcases hrows : s.sparse_rows with _ | rows
    · rw [increment_density_sparse_none s hch hrows]
      exact ⟨rfl, rfl, rfl, rfl, rfl, rfl, rfl, rfl, rfl, rfl, rfl, rfl⟩
    · by_cases hw : s.width = 0
      · rw [increment_density_sparse_w0 s hch hrows hw]
        exact ⟨rfl, rfl, rfl, rfl, rfl, rfl, rfl, rfl, rfl, rfl, rfl, rfl⟩
      · by_cases hlt : i / s.width < rows.length
        · rw [increment_density_sparse_active s hch hrows hw hlt]
          rcases (rows.getD (i / s.width) (fun _ => none)) (i % s.width) with _ | v <;>
            exact ⟨rfl, rfl, rfl, rfl, rfl, rfl, rfl, rfl, rfl, rfl, rfl, rfl⟩
        · rw [increment_density_sparse_oob s hch hrows hw hlt]
          exact ⟨rfl, rfl, rfl, rfl, rfl, rfl, rfl, rfl, rfl, rfl, rfl, rfl⟩
  · have hch2 : s.use_chunked = false := by simpa using hch
    rw [increment_density_dense s hch2]
    show ((s.set_density i _).x_params = s.x_params) ∧ _
    rcases hd : s.density with _ | d
    · rw [set_density_dense_none s hch2 hd]
      exact ⟨rfl, rfl, rfl, rfl, rfl, rfl, rfl, rfl, rfl, rfl, rfl, rfl⟩
    · rw [set_density_dense_some s hch2 hd]
      by_cases hlen : i < d.length
      · rw [if_pos hlen]
        exact ⟨rfl, rfl, rfl, rfl, rfl, rfl, rfl, rfl, rfl, rfl, rfl, rfl⟩
      · rw [if_neg hlen]
        exact ⟨rfl, rfl, rfl, rfl, rfl, rfl, rfl, rfl, rfl, rfl, rfl, rfl⟩

theorem inc_density_dense_shape (s : ChaoticAccumulator) (hch : s.use_chunked = false)
    {d : List ℕ} (hd : s.density = some d) (i : ℕ) :
    ∃ d2, ((s.increment_density i).1).density = some d2 ∧ d2.length = d.length := by
  rw [increment_density_dense s hch]
  show ∃ d2, (s.set_density i _).density = some d2 ∧ _
  rw [set_density_dense_some s hch hd]
  by_cases hlen : i < d.length
  · rw [if_pos hlen]
    exact ⟨_, rfl, List.length_set d i _⟩
  · rw [if_neg hlen]
    exact ⟨d, hd, rfl⟩

theorem inc_rows_sparse_shape (s : ChaoticAccumulator) (hch : s.use_chunked = true)
    {rows : List (ℕ → Option ℕ)} (hrows : s.sparse_rows = some rows) (i : ℕ) :
    ∃ rows2, ((s.increment_density i).1).sparse_rows = some rows2 ∧
      rows2.length = rows.length := by
  by_cases hw : s.width = 0
  · rw [increment_density_sparse_w0 s hch hrows hw]
    exact ⟨rows, hrows, rfl⟩
  · by_cases hlt : i / s.width < rows.length
    · rw [increment_density_sparse_active s hch hrows hw hlt]
      rcases (rows.getD (i / s.width) (fun _ => none)) (i % s.width) with _ | v
      · exact ⟨_, rfl, List.length_set rows _ _⟩
      · exact ⟨_, rfl, List.length_set rows _ _⟩
    · rw [increment_density_sparse_oob s hch hrows hw hlt]
      exact ⟨rows, hrows, rfl⟩

theorem coupled_setxy {sd ss : ChaoticAccumulator} (h : DenseSparseCoupled sd ss)
    (a b : ℚ) :
    DenseSparseCoupled { sd with x := a, y := b } { ss with x := a, y := b } := by
  obtain ⟨hchd, hchs, hxp, hyp, hic, hw, hh, hminx, hmaxx, hminy, hmaxy, hx, hy,
    ⟨d, hd, hdlen⟩, ⟨rows, hrows, hrlen⟩, hcells⟩ := h
  exact ⟨hchd, hchs, hxp, hyp, hic, hw, hh, hminx, hmaxx, hminy, hmaxy, rfl, rfl,
    ⟨d, hd, hdlen⟩, ⟨rows, hrows, hrlen⟩, hcells⟩

theorem coupled_increment_cells {sd ss : ChaoticAccumulator}
    (h : DenseSparseCoupled sd ss) {idx : ℕ} (hidx : idx < sd.width * sd.height)
    (i2 : ℕ) (hi2 : i2 < sd.width * sd.height) :
    ((sd.increment_density idx).1).get_density i2 =
        ((ss.increment_density idx).1).get_density i2 ∧
      ((sd.increment_density idx).1).get_density i2 ≤ U16_MAX := by
  obtain ⟨hchd, hchs, hxp, hyp, hic, hw, hh, hminx, hmaxx, hminy, hmaxy, hx, hy,
    ⟨d, hd, hdlen⟩, ⟨rows, hrows, hrlen⟩, hcells⟩ := h
  have hw0 : sd.width ≠ 0 := by
    intro hc
    rw [hc] at hidx
    simp at hidx
  have hws0 : ss.width ≠ 0 := by
    rw [← hw]
    exact hw0
  have hidxd : idx < d.length := by
    rw [hdlen]
    exact hidx
  have hdivlt : idx / ss.width < rows.length := by
    rw [hrlen, ← hh, ← hw, Nat.div_lt_iff_lt_mul (Nat.pos_of_ne_zero hw0)]
    rw [Nat.mul_comm]
    exact hidx
  rw [inc_get_dense sd hchd idx i2, inc_get_sparse ss hchs hrows idx i2]
  by_cases hieq : i2 = idx
  · subst hieq
    have hcd : i2 = i2 ∧ i2 < ((sd.density.getD []).length) := by
      rw [hd]
      exact ⟨rfl, hidxd⟩
    have hcs : i2 = i2 ∧ ss.width ≠ 0 ∧ i2 / ss.width < rows.length := ⟨rfl, hws0, hdivlt⟩
    rw [if_pos hcd, if_pos hcs]
    have hcell := hcells i2 hi2
    have hgetss : ss.get_density i2 =
        ((rows.getD (i2 / ss.width) (fun _ => none)) (i2 % ss.width)).getD 0 := by
      rw [get_density_sparse ss hchs hrows hws0 i2, if_pos hdivlt]
    rcases hcol : (rows.getD (i2 / ss.width) (fun _ => none)) (i2 % ss.width) with _ | v
    · rw [hcol] at hgetss
      have hzero : sd.get_density i2 = 0 := by
        rw [hcell.1, hgetss]
        rfl
      have hred0 : (match (none : Option ℕ) with
          | none => 1
          | some w2 => if w2 < U16_MAX then min (w2 + 1) U16_MAX else w2) = (1 : ℕ) := rfl
      rw [hzero, hred0]
      constructor
      · norm_num [U16_MAX]
      · norm_num [U16_MAX]
    · rw [hcol] at hgetss
      have hv : sd.get_density i2 = v := by
        rw [hcell.1, hgetss]
        rfl
      have hvcap : v ≤ U16_MAX := by
        rw [← hv]
        exact hcell.2
      rw [hv]
      have hred : (match some v with
          | none => 1
          | some w2 => if w2 < U16_MAX then min (w2 + 1) U16_MAX else w2) =
          if v < U16_MAX then min (v + 1) U16_MAX else v := rfl
      rw [hred]
      constructor
      · split_ifs with hm hlt2 hlt2
        · exact absurd (hm ▸ hlt2) (lt_irrefl _)
        · exact hm.symm
        · rfl
        · exact absurd (le_antisymm hvcap (not_lt.1 hlt2)) hm
      · split_ifs with hm
        · exact le_rfl
        · exact min_le_right _ _
  · rw [if_neg (fun hc => hieq hc.1), if_neg (fun hc => hieq hc.1)]
    exact hcells i2 hi2

theorem coupled_increment {sd ss : ChaoticAccumulator} (h : DenseSparseCoupled sd ss)
    {idx : ℕ} (hidx : idx < sd.width * sd.height) :
    DenseSparseCoupled ((sd.increment_density idx).1) ((ss.increment_density idx).1) := by
  obtain ⟨hchd, hchs, hxp, hyp, hic, hw, hh, hminx, hmaxx, hminy, hmaxy, hx, hy,
    ⟨d, hd, hdlen⟩, ⟨rows, hrows, hrlen⟩, hcells⟩ := h
  obtain ⟨d2, hd2, hd2len⟩ := inc_density_dense_shape sd hchd hd idx
  obtain ⟨rows2, hrows2, hrows2len⟩ := inc_rows_sparse_shape ss hchs hrows idx
  obtain ⟨f1, f2, f3, f4, f5, f6, f7, f8, f9, f10, f11, f12⟩ :=
    increment_density_frame_full sd idx
  obtain ⟨g1, g2, g3, g4, g5, g6, g7, g8, g9, g10, g11, g12⟩ :=
    increment_density_frame_full ss idx
  refine ⟨by rw [f12]; exact hchd, by rw [g12]; exact hchs,
    by rw [f1, g1]; exact hxp, by rw [f2, g2]; exact hyp,
    by rw [f3, g3]; exact hic, by rw [f4, g4]; exact hw,
    by rw [f5, g5]; exact hh, by rw [f6, g6]; exact hminx,
    by rw [f7, g7]; exact hmaxx, by rw [f8, g8]; exact hminy,
    by rw [f9, g9]; exact hmaxy, by rw [f10, g10]; exact hx,
    by rw [f11, g11]; exact hy,
    ⟨d2, hd2, by rw [f4, f5, hd2len, hdlen]⟩,
    ⟨rows2, hrows2, by rw [g5, hrows2len, hrlen]⟩, ?_⟩
  intro i2 hi2
  rw [f4, f5] at hi2
  exact coupled_increment_cells
    ⟨hchd, hchs, hxp, hyp, hic, hw, hh, hminx, hmaxx, hminy, hmaxy, hx, hy,
      ⟨d, hd, hdlen⟩, ⟨rows, hrows, hrlen⟩, hcells⟩ hidx i2 hi2

theorem coupled_stepOnce {sd ss : ChaoticAccumulator} (h : DenseSparseCoupled sd ss) :
    DenseSparseCoupled (sd.stepOnce).1 (ss.stepOnce).1 := by
  obtain ⟨hchd, hchs, hxp, hyp, hic, hw, hh, hminx, hmaxx, hminy, hmaxy, hx, hy,
    hdd, hrr, hcells⟩ := h
  have hcoup : DenseSparseCoupled sd ss :=
    ⟨hchd, hchs, hxp, hyp, hic, hw, hh, hminx, hmaxx, hminy, hmaxy, hx, hy, hdd, hrr, hcells⟩
  have hnext : sd.orbit_next = ss.orbit_next := by
    unfold ChaoticAccumulator.orbit_next
    rw [hxp, hyp, hic, hx, hy]
  have hpixeq : ∀ a b, sd.pixel_of a b = ss.pixel_of a b := by
    intro a b
    unfold ChaoticAccumulator.pixel_of
    rw [hminx, hmaxx, hminy, hmaxy, hw, hh]
  by_cases h1 : sd.min_x ≤ (sd.orbit_next).1 ∧ (sd.orbit_next).1 ≤ sd.max_x ∧
      sd.min_y ≤ (sd.orbit_next).2 ∧ (sd.orbit_next).2 ≤ sd.max_y
  · have h1s : ss.min_x ≤ (ss.orbit_next).1 ∧ (ss.orbit_next).1 ≤ ss.max_x ∧
        ss.min_y ≤ (ss.orbit_next).2 ∧ (ss.orbit_next).2 ≤ ss.max_y := by
      rw [← hnext, ← hminx, ← hmaxx, ← hminy, ← hmaxy]
      exact h1
    by_cases h2 : (sd.pixel_of (sd.orbit_next).1 (sd.orbit_next).2).1 < sd.width ∧
        (sd.pixel_of (sd.orbit_next).1 (sd.orbit_next).2).2 < sd.height
    · have h2s : (ss.pixel_of (ss.orbit_next).1 (ss.orbit_next).2).1 < ss.width ∧
          (ss.pixel_of (ss.orbit_next).1 (ss.orbit_next).2).2 < ss.height := by
        rw [← hnext, ← hpixeq, ← hw, ← hh]
        exact h2
      rw [stepOnce_bin sd h1 h2, stepOnce_bin ss h1s h2s]
      have hmid : DenseSparseCoupled
          { sd with x := (sd.orbit_next).1, y := (sd.orbit_next).2 }
          { ss with x := (ss.orbit_next).1, y := (ss.orbit_next).2 } := by
        rw [← hnext]
        exact coupled_setxy hcoup _ _
      have hidxeq : (ss.pixel_of (ss.orbit_next).1 (ss.orbit_next).2).2 * ss.width +
          (ss.pixel_of (ss.orbit_next).1 (ss.orbit_next).2).1 =
          (sd.pixel_of (sd.orbit_next).1 (sd.orbit_next).2).2 * sd.width +
          (sd.pixel_of (sd.orbit_next).1 (sd.orbit_next).2).1 := by
        rw [← hnext, ← hpixeq, ← hw]
      have hidxlt : (sd.pixel_of (sd.orbit_next).1 (sd.orbit_next).2).2 * sd.width +
          (sd.pixel_of (sd.orbit_next).1 (sd.orbit_next).2).1 <
          ({ sd with x := (sd.orbit_next).1, y := (sd.orbit_next).2 } :
            ChaoticAccumulator).width *
          ({ sd with x := (sd.orbit_next).1, y := (sd.orbit_next).2 } :
            ChaoticAccumulator).height := by
        show _ < sd.width * sd.height
        obtain ⟨hpx, hpy⟩ := h2
        calc (sd.pixel_of (sd.orbit_next).1 (sd.orbit_next).2).2 * sd.width +
            (sd.pixel_of (sd.orbit_next).1 (sd.orbit_next).2).1
            < ((sd.pixel_of (sd.orbit_next).1 (sd.orbit_next).2).2 + 1) * sd.width := by
              rw [Nat.succ_mul]
              omega
          _ ≤ sd.height * sd.width := Nat.mul_le_mul_right _ hpy
          _ = sd.width * sd.height := Nat.mul_comm _ _
      rw [hidxeq]
      have hinc := coupled_increment hmid hidxlt
      split_ifs <;> exact hinc
    · have h2s2 : ¬((ss.pixel_of (ss.orbit_next).1 (ss.orbit_next).2).1 < ss.width ∧
          (ss.pixel_of (ss.orbit_next).1 (ss.orbit_next).2).2 < ss.height) := by
        rw [← hnext, ← hpixeq, ← hw, ← hh]
        exact h2
      rw [stepOnce_out_pix sd h1 h2, stepOnce_out_pix ss h1s h2s2]
      show DenseSparseCoupled { sd with x := (sd.orbit_next).1, y := (sd.orbit_next).2 }
        { ss with x := (ss.orbit_next).1, y := (ss.orbit_next).2 }
      rw [hnext]
      exact coupled_setxy hcoup _ _
  · have h1s2 : ¬(ss.min_x ≤ (ss.orbit_next).1 ∧ (ss.orbit_next).1 ≤ ss.max_x ∧
        ss.min_y ≤ (ss.orbit_next).2 ∧ (ss.orbit_next).2 ≤ ss.max_y) := by
      rw [← hnext, ← hminx, ← hmaxx, ← hminy, ← hmaxy]
      exact h1
    rw [stepOnce_out_rect sd h1, stepOnce_out_rect ss h1s2]
    show DenseSparseCoupled { sd with x := (sd.orbit_next).1, y := (sd.orbit_next).2 }
      { ss with x := (ss.orbit_next).1, y := (ss.orbit_next).2 }
    rw [hnext]
    exact coupled_setxy hcoup _ _

theorem coupled_step_batch (n : ℕ) {sd ss : ChaoticAccumulator}
    (h : DenseSparseCoupled sd ss) :
    DenseSparseCoupled (ChaoticAccumulator.step_batch n sd)
      (ChaoticAccumulator.step_batch n ss) := by
  induction n generalizing sd ss with
  | zero => exact h
  | succ k ih => exact ih (coupled_stepOnce h)

/-- A sequence of `step_batch` calls, the accumulator session shape of the
claims. -/
def run_batches (s : ChaoticAccumulator) (batches : List ℕ) : ChaoticAccumulator :=
  batches.foldl (fun t n => ChaoticAccumulator.step_batch n t) s

theorem coupled_run_batches (batches : List ℕ) {sd ss : ChaoticAccumulator}
    (h : DenseSparseCoupled sd ss) :
    DenseSparseCoupled (run_batches sd batches) (run_batches ss batches) := by
  induction batches generalizing sd ss with
  | nil => exact h
  | cons b bs ih => exact ih (coupled_step_batch b h)

theorem coupled_mkWith (xp yp : List ℚ) (ic : Bool) (w ht : ℕ)
    (ax bx ay b2 sx sy : ℚ) :
    DenseSparseCoupled
      (ChaoticAccumulator.mkWith false xp yp ic w ht ax bx ay b2 sx sy)
      (ChaoticAccumulator.mkWith true xp yp ic w ht ax bx ay b2 sx sy) := by
  refine ⟨rfl, rfl, rfl, rfl, rfl, rfl, rfl, rfl, rfl, rfl, rfl, rfl, rfl,
    ⟨List.replicate (w * ht) 0, rfl, List.length_replicate _ _⟩,
    ⟨List.replicate ht (fun _ => none), rfl, List.length_replicate _ _⟩, ?_⟩
  intro i hi
  rw [get_density_mkWith, get_density_mkWith]
  exact ⟨rfl, Nat.zero_le _⟩

theorem coupled_density_export {sd ss : ChaoticAccumulator}
    (h : DenseSparseCoupled sd ss) :
    sd.density_export = ss.density_export := by
  obtain ⟨hchd, hchs, hxp, hyp, hic, hw, hh, hminx, hmaxx, hminy, hmaxy, hx, hy,
    ⟨d, hd, hdlen⟩, ⟨rows, hrows, hrlen⟩, hcells⟩ := h
  unfold ChaoticAccumulator.density_export
  rw [hchd, hchs]
  simp only [Bool.false_eq_true, if_false, if_true]
  rw [hd, Option.getD_some]
  apply List.ext_getElem
  · rw [List.length_map, List.length_range, hdlen, hw, hh]
  · intro i h1 h2
    rw [List.getElem_map, List.getElem_range]
    have hi : i < sd.width * sd.height := by
      rw [← hdlen]
      exact h1
    have hgd : sd.get_density i = d[i] := by
      rw [get_density_dense sd hchd i, hd, Option.getD_some,
        List.getD_eq_getElem?_getD, List.getElem?_eq_getElem h1, Option.getD_some]
    rw [← (hcells i hi).1, hgd]

/-- C2: two accumulators built with identical parameters but opposite
backing (dense array vs. sparse per-row maps), fed the same sequence of
`step_batch` calls — and hence the same cell-increment sequence — export
identical density arrays, element for element. -/
theorem backing_equivalence (xp yp : List ℚ) (ic : Bool) (w ht : ℕ)
    (ax bx ay b2 sx sy : ℚ) (batches : List ℕ) :
    (run_batches (ChaoticAccumulator.mkWith false xp yp ic w ht ax bx ay b2 sx sy)
      batches).density_export =
      (run_batches (ChaoticAccumulator.mkWith true xp yp ic w ht ax bx ay b2 sx sy)
        batches).density_export :=
  coupled_density_export
    (coupled_run_batches batches (coupled_mkWith xp yp ic w ht ax bx ay b2 sx sy))

/-! ## C10: non-zero counter consistency -/

theorem inc_get_ne (s : ChaoticAccumulator) {i j : ℕ} (hne : j ≠ i) :
    ((s.increment_density i).1).get_density j = s.get_density j := by
  by_cases hch : s.use_chunked = true
  · rcases hrows : s.sparse_rows with _ | rows
    · rw [increment_density_sparse_none s hch hrows]
    · rw [inc_get_sparse s hch hrows i j, if_neg (fun hc => hne hc.1)]
  · have hch2 : s.use_chunked = false := by simpa using hch
    rw [inc_get_dense s hch2 i j, if_neg (fun hc => hne hc.1)]

/-- Structural well-formedness of the backing: the selected store exists,
matches the grid dimensions, and (sparse) never stores an explicit zero
count — zeros are represented by key absence, as the code maintains. -/
def BackingWF (s : ChaoticAccumulator) : Prop :=
  (s.use_chunked = false → ∃ d, s.density = some d ∧ d.length = s.width * s.height) ∧
    (s.use_chunked = true → ∃ rows, s.sparse_rows = some rows ∧
      rows.length = s.height ∧ ∀ r ∈ rows, ∀ c, r c ≠ some 0)

/-- The implicit invariant of the claim: `non_zero` counts exactly the
cells of the grid holding a strictly positive count. -/
def NonZeroConsistent (s : ChaoticAccumulator) : Prop :=
  s.non_zero =
    ((Finset.range (s.width * s.height)).filter (fun i => 0 < s.get_density i)).card

theorem card_filter_update (N idx : ℕ) (hidx : idx < N) (f g : ℕ → ℕ)
    (hother : ∀ j, j ≠ idx → g j = f j) (hpos : 0 < g idx) :
    ((Finset.range N).filter (fun i => 0 < g i)).card =
      ((Finset.range N).filter (fun i => 0 < f i)).card +
        (if f idx = 0 then 1 else 0) := by
  by_cases hf : f idx = 0
  · rw [if_pos hf]
    have hins : (Finset.range N).filter (fun i => 0 < g i) =
        insert idx ((Finset.range N).filter (fun i => 0 < f i)) := by
      ext j
      simp only [Finset.mem_filter, Finset.mem_insert, Finset.mem_range]
      constructor
      · intro ⟨hjN, hgj⟩
        by_cases hji : j = idx
        · exact Or.inl hji
        · exact Or.inr ⟨hjN, by rw [← hother j hji]; exact hgj⟩
      · intro hj
        rcases hj with hj | ⟨hjN, hfj⟩
        · subst hj
          exact ⟨hidx, hpos⟩
        · by_cases hji : j = idx
          · subst hji
            rw [hf] at hfj
            exact absurd hfj (lt_irrefl 0)
          · exact ⟨hjN, by rw [hother j hji]; exact hfj⟩
    rw [hins, Finset.card_insert_of_not_mem]
    intro hmem
    rw [Finset.mem_filter] at hmem
    rw [hf] at hmem
    exact absurd hmem.2 (lt_irrefl 0)
  · rw [if_neg hf, Nat.add_zero]
    congr 1
    ext j
    simp only [Finset.mem_filter, Finset.mem_range]
    by_cases hji : j = idx
    · subst hji
      constructor
      · intro ⟨hjN, _⟩
        exact ⟨hjN, Nat.pos_of_ne_zero hf⟩
      · intro ⟨hjN, _⟩
        exact ⟨hjN, hpos⟩
    · rw [hother j hji]

theorem list_getD_mem {α : Type} (l : List α) (k : ℕ) (d : α) (h : k < l.length) :
    l.getD k d ∈ l := by
  rw [List.getD_eq_getElem?_getD, List.getElem?_eq_getElem h, Option.getD_some]
  exact List.getElem_mem h

theorem inc_rows_shape_nz (s : ChaoticAccumulator) (hch : s.use_chunked = true)
    {rows : List (ℕ → Option ℕ)} (hrows : s.sparse_rows = some rows)
    (hnz : ∀ r ∈ rows, ∀ c, r c ≠ some 0) (i : ℕ) :
    ∃ rows2, ((s.increment_density i).1).sparse_rows = some rows2 ∧
      rows2.length = rows.length ∧ ∀ r ∈ rows2, ∀ c, r c ≠ some 0 := by
  by_cases hw : s.width = 0
  · rw [increment_density_sparse_w0 s hch hrows hw]
    exact ⟨rows, hrows, rfl, hnz⟩
  · by_cases hlt : i / s.width < rows.length
    · rw [increment_density_sparse_active s hch hrows hw hlt]
      rcases hcol : (rows.getD (i / s.width) (fun _ => none)) (i % s.width) with _ | v
      · refine ⟨_, rfl, List.length_set rows _ _, ?_⟩
        intro r hr c
        rcases List.mem_or_eq_of_mem_set hr with hr2 | hr2
        · exact hnz r hr2 c
        · subst hr2
          dsimp only
          by_cases hc : c = i % s.width
          · rw [if_pos hc]
            simp
          · rw [if_neg hc]
            exact hnz _ (list_getD_mem rows _ _ hlt) c
      · refine ⟨_, rfl, List.length_set rows _ _, ?_⟩
        intro r hr c
        rcases List.mem_or_eq_of_mem_set hr with hr2 | hr2
        · exact hnz r hr2 c
        · subst hr2
          dsimp only
          by_cases hc : c = i % s.width
          · rw [if_pos hc]
            have hv0 : v ≠ 0 := by
              intro hv0
              subst hv0
              exact hnz _ (list_getD_mem rows _ _ hlt) (i % s.width) hcol
            intro hcontra
            rw [Option.some_inj] at hcontra
            by_cases hvm : v < U16_MAX
            · rw [if_pos hvm] at hcontra
              have h1le : 1 ≤ min (v + 1) U16_MAX := by
                apply le_min
                · omega
                · norm_num [U16_MAX]
              omega
            · rw [if_neg hvm] at hcontra
              exact hv0 hcontra
          · rw [if_neg hc]
            exact hnz _ (list_getD_mem rows _ _ hlt) c
    · rw [increment_density_sparse_oob s hch hrows hw hlt]
      exact ⟨rows, hrows, rfl, hnz⟩

theorem inc_flag_iff_zero (s : ChaoticAccumulator) (hwf : BackingWF s) {idx : ℕ}
    (hidx : idx < s.width * s.height) :
    ((s.increment_density idx).2 = true) ↔ s.get_density idx = 0 := by
  by_cases hch : s.use_chunked = true
  · obtain ⟨rows, hrows, hrlen, hnz⟩ := hwf.2 hch
    have hw0 : s.width ≠ 0 := by
      intro hc
      rw [hc] at hidx
      simp at hidx
    have hdiv : idx / s.width < rows.length := by
      rw [hrlen, Nat.div_lt_iff_lt_mul (Nat.pos_of_ne_zero hw0), Nat.mul_comm]
      exact hidx
    rw [inc_flag_sparse s hch hrows idx]
    have hget : s.get_density idx =
        ((rows.getD (idx / s.width) (fun _ => none)) (idx % s.width)).getD 0 := by
      rw [get_density_sparse s hch hrows hw0 idx, if_pos hdiv]
    rcases hcol : (rows.getD (idx / s.width) (fun _ => none)) (idx % s.width) with _ | v
    · rw [hcol] at hget
      simp [hget, hw0, hdiv, hcol]
    · rw [hcol] at hget
      have hvne : v ≠ 0 := by
        intro h0
        subst h0
        exact hnz _ (list_getD_mem rows _ _ hdiv) _ hcol
      simp [hget, hcol, hvne]
  · have hch2 : s.use_chunked = false := by simpa using hch
    rw [inc_flag_dense s hch2 idx]
    simp

theorem inc_get_pos (s : ChaoticAccumulator) (hwf : BackingWF s) {idx : ℕ}
    (hidx : idx < s.width * s.height) :
    0 < ((s.increment_density idx).1).get_density idx := by
  by_cases hch : s.use_chunked = true
  · obtain ⟨rows, hrows, hrlen, hnz⟩ := hwf.2 hch
    have hw0 : s.width ≠ 0 := by
      intro hc
      rw [hc] at hidx
      simp at hidx
    have hdiv : idx / s.width < rows.length := by
      rw [hrlen, Nat.div_lt_iff_lt_mul (Nat.pos_of_ne_zero hw0), Nat.mul_comm]
      exact hidx
    rw [inc_get_sparse s hch hrows idx idx, if_pos ⟨rfl, hw0, hdiv⟩]
    rcases hcol : (rows.getD (idx / s.width) (fun _ => none)) (idx % s.width) with _ | v
    · exact Nat.one_pos
    · have hred : (match some v with
          | none => 1
          | some w2 => if w2 < U16_MAX then min (w2 + 1) U16_MAX else w2) =
          if v < U16_MAX then min (v + 1) U16_MAX else v := rfl
      rw [hred]
      have hvne : v ≠ 0 := by
        intro h0
        subst h0
        exact hnz _ (list_getD_mem rows _ _ hdiv) _ hcol
      split_ifs with hvm
      · have h1le : 1 ≤ min (v + 1) U16_MAX := by
          apply le_min
          · omega
          · norm_num [U16_MAX]
        omega
      · omega
  · have hch2 : s.use_chunked = false := by simpa using hch
    obtain ⟨d, hd, hdlen⟩ := hwf.1 hch2
    have hcd : idx = idx ∧ idx < (s.density.getD []).length := by
      rw [hd]
      exact ⟨rfl, by rw [Option.getD_some, hdlen]; exact hidx⟩
    rw [inc_get_dense s hch2 idx idx, if_pos hcd]
    split_ifs with hm
    · norm_num [U16_MAX]
    · have h1le : 1 ≤ min (s.get_density idx + 1) U16_MAX := by
        apply le_min
        · omega
        · norm_num [U16_MAX]
      omega

theorem inc_backing_wf (s : ChaoticAccumulator) (hwf : BackingWF s) (idx : ℕ) :
    BackingWF ((s.increment_density idx).1) := by
  obtain ⟨hfr1, hfr2, hfr3, hfr4⟩ := increment_density_frame s idx
  constructor
  · intro hch2
    rw [hfr1] at hch2
    obtain ⟨d, hd, hdlen⟩ := hwf.1 hch2
    obtain ⟨d2, hd2, hd2len⟩ := inc_density_dense_shape s hch2 hd idx
    exact ⟨d2, hd2, by rw [hfr2, hfr3, hd2len, hdlen]⟩
  · intro hch2
    rw [hfr1] at hch2
    obtain ⟨rows, hrows, hrlen, hnz⟩ := hwf.2 hch2
    obtain ⟨rows2, hrows2, hrlen2, hnz2⟩ := inc_rows_shape_nz s hch2 hrows hnz idx
    exact ⟨rows2, hrows2, by rw [hfr3, hrlen2, hrlen], hnz2⟩

theorem inv_increment (s : ChaoticAccumulator) (hwf : BackingWF s)
    (hnzc : NonZeroConsistent s) {idx : ℕ} (hidx : idx < s.width * s.height) :
    BackingWF (if (s.increment_density idx).2 then
        { (s.increment_density idx).1 with
          non_zero := (s.increment_density idx).1.non_zero + 1 }
      else (s.increment_density idx).1) ∧
      NonZeroConsistent (if (s.increment_density idx).2 then
        { (s.increment_density idx).1 with
          non_zero := (s.increment_density idx).1.non_zero + 1 }
      else (s.increment_density idx).1) := by
  obtain ⟨hfr1, hfr2, hfr3, hfr4⟩ := increment_density_frame s idx
  have hwf2 := inc_backing_wf s hwf idx
  have hcount : ((Finset.range (s.width * s.height)).filter
      (fun i => 0 < ((s.increment_density idx).1).get_density i)).card =
      ((Finset.range (s.width * s.height)).filter
        (fun i => 0 < s.get_density i)).card +
      (if s.get_density idx = 0 then 1 else 0) :=
    card_filter_update (s.width * s.height) idx hidx _ _
      (fun j hj => inc_get_ne s hj) (inc_get_pos s hwf hidx)
  split_ifs with hfl
  · refine ⟨hwf2, ?_⟩
    show (s.increment_density idx).1.non_zero + 1 =
      ((Finset.range ((s.increment_density idx).1.width *
        (s.increment_density idx).1.height)).filter
        (fun i => 0 < ((s.increment_density idx).1).get_density i)).card
    rw [hfr2, hfr3, hfr4, hcount, if_pos ((inc_flag_iff_zero s hwf hidx).1 hfl), hnzc]
  · refine ⟨hwf2, ?_⟩
    show (s.increment_density idx).1.non_zero =
      ((Finset.range ((s.increment_density idx).1.width *
        (s.increment_density idx).1.height)).filter
        (fun i => 0 < ((s.increment_density idx).1).get_density i)).card
    have hnzero : ¬ s.get_density idx = 0 := by
      intro hz
      exact hfl ((inc_flag_iff_zero s hwf hidx).2 hz)
    rw [hfr2, hfr3, hfr4, hcount, if_neg hnzero, Nat.add_zero, hnzc]

theorem stepOnce_inv {s : ChaoticAccumulator}
    (h : BackingWF s ∧ NonZeroConsistent s) :
    BackingWF (s.stepOnce).1 ∧ NonZeroConsistent (s.stepOnce).1 := by
  obtain ⟨hwf, hnzc⟩ := h
  by_cases h1 : s.min_x ≤ (s.orbit_next).1 ∧ (s.orbit_next).1 ≤ s.max_x ∧
      s.min_y ≤ (s.orbit_next).2 ∧ (s.orbit_next).2 ≤ s.max_y
  · by_cases h2 : (s.pixel_of (s.orbit_next).1 (s.orbit_next).2).1 < s.width ∧
        (s.pixel_of (s.orbit_next).1 (s.orbit_next).2).2 < s.height
    · rw [stepOnce_bin s h1 h2]
      have hidxlt : (s.pixel_of (s.orbit_next).1 (s.orbit_next).2).2 * s.width +
          (s.pixel_of (s.orbit_next).1 (s.orbit_next).2).1 <
          ({ s with x := (s.orbit_next).1, y := (s.orbit_next).2 } :
            ChaoticAccumulator).width *
          ({ s with x := (s.orbit_next).1, y := (s.orbit_next).2 } :
            ChaoticAccumulator).height := by
        show _ < s.width * s.height
        obtain ⟨hpx, hpy⟩ := h2
        calc (s.pixel_of (s.orbit_next).1 (s.orbit_next).2).2 * s.width +
            (s.pixel_of (s.orbit_next).1 (s.orbit_next).2).1
            < ((s.pixel_of (s.orbit_next).1 (s.orbit_next).2).2 + 1) * s.width := by
              rw [Nat.succ_mul]
              omega
          _ ≤ s.height * s.width := Nat.mul_le_mul_right _ hpy
          _ = s.width * s.height := Nat.mul_comm _ _
      exact inv_increment { s with x := (s.orbit_next).1, y := (s.orbit_next).2 }
        hwf hnzc hidxlt
    · rw [stepOnce_out_pix s h1 h2]
      exact ⟨hwf, hnzc⟩
  · rw [stepOnce_out_rect s h1]
    exact ⟨hwf, hnzc⟩

theorem step_batch_inv (n : ℕ) {s : ChaoticAccumulator}
    (h : BackingWF s ∧ NonZeroConsistent s) :
    BackingWF (ChaoticAccumulator.step_batch n s) ∧
      NonZeroConsistent (ChaoticAccumulator.step_batch n s) := by
  induction n generalizing s with
  | zero => exact h
  | succ k ih => exact ih (stepOnce_inv h)

theorem step_batch_with_new_fst (n : ℕ) (s : ChaoticAccumulator) :
    (ChaoticAccumulator.step_batch_with_new n s).1 =
      ChaoticAccumulator.step_batch n s := by
  induction n generalizing s with
  | zero => rfl
  | succ k ih => exact ih (s.stepOnce).1

/-- An arbitrary interleaving of `step_batch` (flag `false`) and
`step_batch_with_new` (flag `true`) calls. -/
def run_calls (s : ChaoticAccumulator) (calls : List (Bool × ℕ)) : ChaoticAccumulator :=
  calls.foldl (fun t c =>
    if c.1 then (ChaoticAccumulator.step_batch_with_new c.2 t).1
    else ChaoticAccumulator.step_batch c.2 t) s

theorem run_calls_inv (calls : List (Bool × ℕ)) {s : ChaoticAccumulator}
    (h : BackingWF s ∧ NonZeroConsistent s) :
    BackingWF (run_calls s calls) ∧ NonZeroConsistent (run_calls s calls) := by
  induction calls generalizing s with
  | nil => exact h
  | cons c cs ih =>
      rcases c with ⟨b, n⟩
      cases b
      · exact ih (step_batch_inv n h)
      · have hrw : run_calls s ((true, n) :: cs) =
            run_calls ((ChaoticAccumulator.step_batch_with_new n s).1) cs := rfl
        rw [hrw, step_batch_with_new_fst]
        exact ih (step_batch_inv n h)

theorem mkWith_inv (forced : Bool) (xp yp : List ℚ) (ic : Bool) (w ht : ℕ)
    (ax bx ay b2 sx sy : ℚ) :
    BackingWF (ChaoticAccumulator.mkWith forced xp yp ic w ht ax bx ay b2 sx sy) ∧
      NonZeroConsistent (ChaoticAccumulator.mkWith forced xp yp ic w ht ax bx ay b2 sx sy) := by
  constructor
  · cases forced
    · exact ⟨fun _ => ⟨List.replicate (w * ht) 0, rfl, List.length_replicate _ _⟩,
        fun hc => by simp [ChaoticAccumulator.mkWith] at hc⟩
    · refine ⟨fun hc => by simp [ChaoticAccumulator.mkWith] at hc,
        fun _ => ⟨List.replicate ht (fun _ => none), rfl, List.length_replicate _ _, ?_⟩⟩
      intro r hr c
      rw [List.eq_of_mem_replicate hr]
      simp
  · have hempty : ∀ N : ℕ, ((Finset.range N).filter (fun i =>
        0 < (ChaoticAccumulator.mkWith forced xp yp ic w ht ax bx ay b2 sx
          sy).get_density i)) = ∅ := by
      intro N
      apply Finset.filter_eq_empty_iff.2
      intro i hi
      rw [get_density_mkWith]
      exact lt_irrefl 0
    unfold NonZeroConsistent
    rw [hempty, Finset.card_empty]
    cases forced <;> rfl

/-- C10: in every state reachable from construction (either backing) by
any interleaving of `step_batch` and `step_batch_with_new` calls, the
`non_zero` counter equals the number of grid cells holding a strictly
positive count. -/
theorem non_zero_count_consistency (forced : Bool) (xp yp : List ℚ) (ic : Bool)
    (w ht : ℕ) (ax bx ay b2 sx sy : ℚ) (calls : List (Bool × ℕ)) :
    (run_calls (ChaoticAccumulator.mkWith forced xp yp ic w ht ax bx ay b2 sx sy)
      calls).non_zero =
      ((Finset.range
        ((run_calls (ChaoticAccumulator.mkWith forced xp yp ic w ht ax bx ay b2 sx sy)
          calls).width *
        (run_calls (ChaoticAccumulator.mkWith forced xp yp ic w ht ax bx ay b2 sx sy)
          calls).height)).filter
        (fun i => 0 < (run_calls (ChaoticAccumulator.mkWith forced xp yp ic w ht ax bx
          ay b2 sx sy) calls).get_density i)).card :=
  (run_calls_inv calls (mkWith_inv forced xp yp ic w ht ax bx ay b2 sx sy)).2

/-! ## C1: the tangent-basis orthonormality invariant

The code normalizes `v2` by `√d22` computed BEFORE the Gram-Schmidt
orthogonalization (`dot_22` is taken from the raw `J·v2`), so after a step
`v1` is unit and orthogonal to `v2`, but `‖v2‖ ≤ 1` with equality only
when the multiplied vectors were already orthogonal. -/

theorem gs_norm_one (a b : ℝ) (h : a * a + b * b ≠ 0) :
    (a / Real.sqrt (a * a + b * b)) ^ 2 + (b / Real.sqrt (a * a + b * b)) ^ 2 = 1 := by
  have hpos : 0 < a * a + b * b :=
    lt_of_le_of_ne (add_nonneg (mul_self_nonneg a) (mul_self_nonneg b)) (Ne.symm h)
  rw [div_pow, div_pow, div_add_div_same, Real.sq_sqrt hpos.le]
  rw [show a ^ 2 + b ^ 2 = a * a + b * b by ring]
  exact div_self h

theorem gs_orth (a b c d s1 s2 : ℝ) (h : a * a + b * b ≠ 0) :
    (a / s1) * ((c - ((a * c + b * d) / (a * a + b * b)) * a) / s2) +
      (b / s1) * ((d - ((a * c + b * d) / (a * a + b * b)) * b) / s2) = 0 := by
  rw [div_mul_div_comm, div_mul_div_comm, div_add_div_same]
  have hnum : a * (c - ((a * c + b * d) / (a * a + b * b)) * a) +
      b * (d - ((a * c + b * d) / (a * a + b * b)) * b) = 0 := by
    field_simp
    ring
  rw [hnum, zero_div]

theorem gs_v2_le_one (a b c d : ℝ) (h11 : a * a + b * b ≠ 0)
    (h22 : c * c + d * d ≠ 0) :
    ((c - ((a * c + b * d) / (a * a + b * b)) * a) / Real.sqrt (c * c + d * d)) ^ 2 +
      ((d - ((a * c + b * d) / (a * a + b * b)) * b) / Real.sqrt (c * c + d * d)) ^ 2 ≤
      1 := by
  have h22pos : 0 < c * c + d * d :=
    lt_of_le_of_ne (add_nonneg (mul_self_nonneg c) (mul_self_nonneg d)) (Ne.symm h22)
  rw [div_pow, div_pow, div_add_div_same, Real.sq_sqrt h22pos.le, div_le_one h22pos]
  have hq : (c - ((a * c + b * d) / (a * a + b * b)) * a) ^ 2 +
      (d - ((a * c + b * d) / (a * a + b * b)) * b) ^ 2 =
      (c * c + d * d) - (a * c + b * d) ^ 2 / (a * a + b * b) := by
    field_simp
    ring
  rw [hq]
  have hnn : 0 ≤ (a * c + b * d) ^ 2 / (a * a + b * b) :=
    div_nonneg (sq_nonneg _) (add_nonneg (mul_self_nonneg a) (mul_self_nonneg b))
  linarith

/-- C1 counterexample: one tangent step of `test_chaos` at the Jacobian
`[[1,1],[0,1]]` from the orthonormal basis `(1,0), (0,1)` leaves `v2`
with squared norm `1/2`, not 1 — because `v2` is divided by the norm
computed before orthogonalization. -/
theorem tangent_step_v2_not_unit :
    ((tangent_step ⟨1, 1, 0, 1⟩
        { v1x := 1, v1y := 0, v2x := 0, v2y := 1, nan1 := False, nan2 := False }).v2x) ^ 2 +
      ((tangent_step ⟨1, 1, 0, 1⟩
        { v1x := 1, v1y := 0, v2x := 0, v2y := 1, nan1 := False, nan2 := False }).v2y) ^ 2 ≠
      1 := by
  have hx : (tangent_step ⟨1, 1, 0, 1⟩
      { v1x := 1, v1y := 0, v2x := 0, v2y := 1, nan1 := False, nan2 := False }).v2x = 0 := by
    norm_num [tangent_step, mat_vec_mult, dot_product]
  have hy : (tangent_step ⟨1, 1, 0, 1⟩
      { v1x := 1, v1y := 0, v2x := 0, v2y := 1, nan1 := False, nan2 := False }).v2y =
      1 / Real.sqrt 2 := by
    norm_num [tangent_step, mat_vec_mult, dot_product]
  rw [hx, hy, div_pow, one_pow, Real.sq_sqrt (by norm_num : (0 : ℝ) ≤ 2)]
  norm_num

/-- C1 amended: after every tangent step whose multiplied vectors are
nondegenerate (`d11 ≠ 0` and `d22 ≠ 0`), `v1` is exactly unit and exactly
orthogonal to `v2`, but `v2` — which the code divides by the
pre-orthogonalization norm `√d22` — only satisfies `‖v2‖ ≤ 1`, and
`‖v2‖ = 1` fails in general (see the counterexample). -/
theorem tangent_step_orthonormality (m : Mat2) (t : TangentState)
    (h11 : dot_product (mat_vec_mult m (t.v1x, t.v1y))
      (mat_vec_mult m (t.v1x, t.v1y)) ≠ 0)
    (h22 : dot_product (mat_vec_mult m (t.v2x, t.v2y))
      (mat_vec_mult m (t.v2x, t.v2y)) ≠ 0) :
    ((tangent_step m t).v1x ^ 2 + (tangent_step m t).v1y ^ 2 = 1) ∧
      ((tangent_step m t).v1x * (tangent_step m t).v2x +
        (tangent_step m t).v1y * (tangent_step m t).v2y = 0) ∧
      ((tangent_step m t).v2x ^ 2 + (tangent_step m t).v2y ^ 2 ≤ 1) := by
  simp only [tangent_step, mat_vec_mult, dot_product] at h11 h22 ⊢
  exact ⟨gs_norm_one _ _ h11, gs_orth _ _ _ _ _ _ h11, gs_v2_le_one _ _ _ _ h11 h22⟩

/-- C1 amended witness: the identity Jacobian from the initial basis. -/
theorem tangent_step_orthonormality_witness :
    (dot_product (mat_vec_mult ⟨1, 0, 0, 1⟩ (1, 0)) (mat_vec_mult ⟨1, 0, 0, 1⟩ (1, 0)) ≠ 0) ∧
      ((tangent_step ⟨1, 0, 0, 1⟩
        { v1x := 1, v1y := 0, v2x := 0, v2y := 1, nan1 := False, nan2 := False }).v1x ^ 2 +
        (tangent_step ⟨1, 0, 0, 1⟩
        { v1x := 1, v1y := 0, v2x := 0, v2y := 1, nan1 := False, nan2 := False }).v1y ^ 2 = 1) := by
  have h11 : dot_product (mat_vec_mult (⟨1, 0, 0, 1⟩ : Mat2) ((1 : ℝ), (0 : ℝ)))
      (mat_vec_mult ⟨1, 0, 0, 1⟩ (1, 0)) ≠ 0 := by
    norm_num [mat_vec_mult, dot_product]
  have h22 : dot_product (mat_vec_mult (⟨1, 0, 0, 1⟩ : Mat2) ((0 : ℝ), (1 : ℝ)))
      (mat_vec_mult ⟨1, 0, 0, 1⟩ (0, 1)) ≠ 0 := by
    norm_num [mat_vec_mult, dot_product]
  exact ⟨h11, (tangent_step_orthonormality ⟨1, 0, 0, 1⟩
    { v1x := 1, v1y := 0, v2x := 0, v2y := 1, nan1 := False, nan2 := False } h11 h22).1⟩

/-! ## C4: sentinel return of test_chaos vs divergence/degeneracy aborts

The abort conditions of the measurement loop are characterized by the pure
predicates `aborts_at` / `test_aborts` on the orbit, and an abort provably
forces the sentinel.  The converse direction of the claim is refuted: a
concrete quadratic map reaches the sentinel `(-1, -1, -1)` through the
normal (non-aborting) path, because the transient tangent step contracts
`v2` (the C1 pre-orthogonalization normalization), making every measured
log equal `ln(1/2)` and hence every exponent exactly `-1`. -/
/-! ## C4 development -/

theorem trans_orbit (args1 args2 : List ℝ) (ic : Bool) (n : ℕ) :
    (((trans_step args1 args2 ic)^[n]) init_chaos).x = (orbit_iter args1 args2 ic n).1 ∧
    (((trans_step args1 args2 ic)^[n]) init_chaos).y = (orbit_iter args1 args2 ic n).2 := by
  induction n with
  | zero => exact ⟨rfl, rfl⟩
  | succ k ih =>
      have hp : ((((trans_step args1 args2 ic)^[k]) init_chaos).x,
          (((trans_step args1 args2 ic)^[k]) init_chaos).y) = orbit_iter args1 args2 ic k :=
        Prod.ext ih.1 ih.2
      rw [Function.iterate_succ_apply']
      constructor
      · show (chaos_next args1 args2 ic
            ((((trans_step args1 args2 ic)^[k]) init_chaos).x,
             (((trans_step args1 args2 ic)^[k]) init_chaos).y)).1 =
          (chaos_next args1 args2 ic (orbit_iter args1 args2 ic k)).1
        rw [hp]
      · show (chaos_next args1 args2 ic
            ((((trans_step args1 args2 ic)^[k]) init_chaos).x,
             (((trans_step args1 args2 ic)^[k]) init_chaos).y)).2 =
          (chaos_next args1 args2 ic (orbit_iter args1 args2 ic k)).2
        rw [hp]

theorem meas_step_char (args1 args2 : List ℝ) (th : ℝ) (ic : Bool) (nt j : ℕ)
    (s : MeasState)
    (hx : s.cs.x = (orbit_iter args1 args2 ic (nt + j)).1)
    (hy : s.cs.y = (orbit_iter args1 args2 ic (nt + j)).2)
    (hc : s.cnt = stuck_count args1 args2 ic nt j) :
    (aborts_at args1 args2 ic nt th j → meas_step args1 args2 th ic s = none) ∧
    (¬ aborts_at args1 args2 ic nt th j →
      ∃ s2, meas_step args1 args2 th ic s = some s2 ∧
        s2.cs.x = (orbit_iter args1 args2 ic (nt + j + 1)).1 ∧
        s2.cs.y = (orbit_iter args1 args2 ic (nt + j + 1)).2 ∧
        s2.cnt = stuck_count args1 args2 ic nt (j + 1)) := by
  have hp : ((s.cs.x, s.cs.y) : ℝ × ℝ) = orbit_iter args1 args2 ic (nt + j) := Prod.ext hx hy
  have hnext : chaos_next args1 args2 ic (s.cs.x, s.cs.y) =
      orbit_iter args1 args2 ic (nt + j + 1) := by
    rw [hp]
    rfl
  have hab : aborts_at args1 args2 ic nt th j =
      (|(orbit_iter args1 args2 ic (nt + j + 1)).1| > th ∨
       |(orbit_iter args1 args2 ic (nt + j + 1)).2| > th ∨
        ((|(orbit_iter args1 args2 ic (nt + j + 1)).1 -
            (orbit_iter args1 args2 ic (nt + j)).1| < 1e-16 ∨
          |(orbit_iter args1 args2 ic (nt + j + 1)).2 -
            (orbit_iter args1 args2 ic (nt + j)).2| < 1e-16) ∧
          stuck_count args1 args2 ic nt (j + 1) ≥ 15)) := rfl
  constructor
  · intro habort
    rw [hab] at habort
    simp only [meas_step]
    rw [hnext, hx, hy]
    rcases habort with h1 | h1 | h1
    · rw [if_pos (Or.inl h1)]
    · rw [if_pos (Or.inr h1)]
    · rcases h1 with ⟨hmove, hcnt⟩
      by_cases hdiv : |(orbit_iter args1 args2 ic (nt + j + 1)).1| > th ∨
          |(orbit_iter args1 args2 ic (nt + j + 1)).2| > th
      · rw [if_pos hdiv]
      · rw [if_neg hdiv]
        have hstk : stuck_count args1 args2 ic nt (j + 1) =
            stuck_count args1 args2 ic nt j + 1 := by
          simp only [stuck_count]
          rw [if_pos hmove]
        rw [if_pos ⟨hmove, by rw [hc, ← hstk]; exact hcnt⟩]
  · intro hnab
    rw [hab] at hnab
    push_neg at hnab
    obtain ⟨h1, h2, h3⟩ := hnab
    simp only [meas_step]
    rw [hnext, hx, hy]
    have hdiv : ¬ (|(orbit_iter args1 args2 ic (nt + j + 1)).1| > th ∨
        |(orbit_iter args1 args2 ic (nt + j + 1)).2| > th) := by
      push_neg
      exact ⟨h1, h2⟩
    rw [if_neg hdiv]
    by_cases hmove : |(orbit_iter args1 args2 ic (nt + j + 1)).1 -
          (orbit_iter args1 args2 ic (nt + j)).1| < 1e-16 ∨
        |(orbit_iter args1 args2 ic (nt + j + 1)).2 -
          (orbit_iter args1 args2 ic (nt + j)).2| < 1e-16
    · have hstk : stuck_count args1 args2 ic nt (j + 1) =
          stuck_count args1 args2 ic nt j + 1 := by
        simp only [stuck_count]
        rw [if_pos hmove]
      have hlt : ¬ (s.cnt + 1 ≥ 15) := by
        rw [hc, ← hstk]
        exact fun hge => absurd (h3 hmove) (not_lt.2 hge)
      rw [if_neg (fun hcc => hlt hcc.2)]
      refine ⟨_, rfl, rfl, rfl, ?_⟩
      show (if _ then s.cnt + 1 else s.cnt - 1) = _
      rw [if_pos hmove, hc, hstk]
    · have hstk : stuck_count args1 args2 ic nt (j + 1) =
          stuck_count args1 args2 ic nt j - 1 := by
        simp only [stuck_count]
        rw [if_neg hmove]
      rw [if_neg (fun hcc => hmove hcc.1)]
      refine ⟨_, rfl, rfl, rfl, ?_⟩
      show (if _ then s.cnt + 1 else s.cnt - 1) = _
      rw [if_neg hmove, hc, hstk]

theorem meas_loop_abort (args1 args2 : List ℝ) (th : ℝ) (ic : Bool) (nt : ℕ) :
    ∀ (n j : ℕ) (s : MeasState),
      s.cs.x = (orbit_iter args1 args2 ic (nt + j)).1 →
      s.cs.y = (orbit_iter args1 args2 ic (nt + j)).2 →
      s.cnt = stuck_count args1 args2 ic nt j →
      (∃ k, k < n ∧ aborts_at args1 args2 ic nt th (j + k)) →
      meas_loop args1 args2 th ic n s = none := by
  intro n
  induction n with
  | zero =>
      rintro j s _ _ _ ⟨k, hk, _⟩
      exact absurd hk (Nat.not_lt_zero k)
  | succ m ih =>
      rintro j s hx hy hc ⟨k, hk, habk⟩
      simp only [meas_loop]
      by_cases hj : aborts_at args1 args2 ic nt th j
      · rw [(meas_step_char args1 args2 th ic nt j s hx hy hc).1 hj]
      · obtain ⟨s2, hstep, hx2, hy2, hc2⟩ :=
          (meas_step_char args1 args2 th ic nt j s hx hy hc).2 hj
        rw [hstep]
        have hk0 : k ≠ 0 := by
          rintro rfl
          exact hj habk
        refine ih (j + 1) s2 hx2 hy2 hc2 ⟨k - 1, by omega, ?_⟩
        have hjk : j + 1 + (k - 1) = j + k := by omega
        rw [hjk]
        exact habk

theorem cex_const_orbit (j : ℕ) (hj : 1 ≤ j) :
    orbit_iter [(2000000 : ℝ), 0, 0, 0, 0, 0] [2000000, 0, 0, 0, 0, 0] false j =
      (2000000, 2000000) := by
  induction j with
  | zero => omega
  | succ i ih =>
      rcases Nat.eq_zero_or_pos i with h0 | h1
      · subst h0
        show chaos_next _ _ false (orbit_iter _ _ false 0) = _
        norm_num [orbit_iter, chaos_next, map_quadraticR]
      · show chaos_next _ _ false (orbit_iter _ _ false i) = _
        rw [ih h1]
        norm_num [chaos_next, map_quadraticR]

/-- C4 amended: test_chaos returns the sentinel whenever a measurement step
aborts (divergence past `thresh`, or stuck counter reaching 15); in
particular a constant map jumping straight to `(2·10⁶, 2·10⁶)` (past
`thresh = 10⁶` on the first measurement iterate) yields the sentinel. -/
theorem test_chaos_abort_sentinel :
    (∀ (args1 args2 : List ℝ) (nt n : ℕ) (th : ℝ) (ic : Bool),
      test_aborts args1 args2 nt n th ic →
      test_chaos args1 args2 nt n th ic = (some (-1), some (-1), some (-1))) ∧
    test_chaos [(2000000 : ℝ), 0, 0, 0, 0, 0] [2000000, 0, 0, 0, 0, 0]
        1000 1000 1000000 false = (some (-1), some (-1), some (-1)) := by
  have habort : ∀ (args1 args2 : List ℝ) (nt n : ℕ) (th : ℝ) (ic : Bool),
      test_aborts args1 args2 nt n th ic →
      test_chaos args1 args2 nt n th ic = (some (-1), some (-1), some (-1)) := by
    intro args1 args2 nt n th ic h
    obtain ⟨k, hk, habk⟩ := h
    have hnone : meas_loop args1 args2 th ic n
        { cs := (trans_step args1 args2 ic)^[nt] init_chaos,
          max_le := some 0, min_le := some 0, c_sum := some 0, cnt := 0 } = none := by
      refine meas_loop_abort args1 args2 th ic nt n 0 _
        (trans_orbit args1 args2 ic nt).1 (trans_orbit args1 args2 ic nt).2 rfl
        ⟨k, hk, ?_⟩
      rw [Nat.zero_add]
      exact habk
    simp only [test_chaos]
    rw [hnone]
  refine ⟨habort, habort _ _ _ _ _ _ ?_⟩
  refine ⟨0, by norm_num, ?_⟩
  have h1 : orbit_iter [(2000000 : ℝ), 0, 0, 0, 0, 0] [2000000, 0, 0, 0, 0, 0]
      false (1000 + 0 + 1) = (2000000, 2000000) := cex_const_orbit _ (by norm_num)
  exact Or.inl (by rw [h1]; norm_num)

/-- C4 witness for the amended theorem: at `n_trans = 0`, `n_test = 1`, the
constant map to `(2·10⁶, 2·10⁶)` provably aborts (first iterate exceeds
`thresh = 10⁶`), and the theorem then yields the sentinel. -/
theorem test_chaos_abort_sentinel_witness :
    test_aborts [(2000000 : ℝ), 0, 0, 0, 0, 0] [2000000, 0, 0, 0, 0, 0]
        0 1 1000000 false ∧
    test_chaos [(2000000 : ℝ), 0, 0, 0, 0, 0] [2000000, 0, 0, 0, 0, 0]
        0 1 1000000 false = (some (-1), some (-1), some (-1)) := by
  have hta : test_aborts [(2000000 : ℝ), 0, 0, 0, 0, 0] [2000000, 0, 0, 0, 0, 0]
      0 1 1000000 false := by
    refine ⟨0, by norm_num, ?_⟩
    have h1 : orbit_iter [(2000000 : ℝ), 0, 0, 0, 0, 0] [2000000, 0, 0, 0, 0, 0]
        false (0 + 0 + 1) = (2000000, 2000000) := cex_const_orbit _ (by norm_num)
    exact Or.inl (by rw [h1]; norm_num)
  exact ⟨hta, test_chaos_abort_sentinel.1 _ _ _ _ _ _ hta⟩

noncomputable section

open scoped Classical

/-- X-coefficients of the C4 counterexample quadratic map (exact values in
`ℚ[√3]`): chosen so the orbit runs `(0.05, 0.05) → (0, 1) → (1, 0)` with
Jacobians `[[1, √3], [0, 1]]` at `(0, 1)` and `[[1/2, 0], [0, 1]]` at
`(1, 0)`. -/
def cexX : List ℝ :=
  [(150 * Real.sqrt 3 - 383) / 1296, (4654 - 1596 * Real.sqrt 3) / 1296,
   (798 * Real.sqrt 3 - 2003) / 1296, (1596 * Real.sqrt 3 - 3358) / 1296,
   (3358 - 1596 * Real.sqrt 3) / 1296, (1446 * Real.sqrt 3 - 1679) / 1296]

/-- Y-coefficients of the C4 counterexample quadratic map. -/
def cexY : List ℝ :=
  [38 / 27, -130 / 27, 65 / 27, 130 / 27, -103 / 27, 65 / 27]

end

theorem cex_Fx0 : map_quadraticR cexX 0.05 0.05 = 0 := by
  simp only [cexX, map_quadraticR, List.getD_cons_zero, List.getD_cons_succ]
  ring_nf

theorem cex_Fy0 : map_quadraticR cexY 0.05 0.05 = 1 := by
  simp only [cexY, map_quadraticR, List.getD_cons_zero, List.getD_cons_succ]
  norm_num

theorem cex_Fx1 : map_quadraticR cexX 0 1 = 1 := by
  simp only [cexX, map_quadraticR, List.getD_cons_zero, List.getD_cons_succ]
  ring_nf

theorem cex_Fy1 : map_quadraticR cexY 0 1 = 0 := by
  simp only [cexY, map_quadraticR, List.getD_cons_zero, List.getD_cons_succ]
  norm_num

theorem cex_J1 : jacobian_quadratic cexX cexY 0 1 = ⟨1, Real.sqrt 3, 0, 1⟩ := by
  simp only [jacobian_quadratic, cexX, cexY, List.getD_cons_zero, List.getD_cons_succ,
    Mat2.mk.injEq]
  refine ⟨?_, ?_, ?_, ?_⟩ <;> ring_nf

theorem cex_J2 : jacobian_quadratic cexX cexY 1 0 = ⟨1 / 2, 0, 0, 1⟩ := by
  simp only [jacobian_quadratic, cexX, cexY, List.getD_cons_zero, List.getD_cons_succ,
    Mat2.mk.injEq]
  refine ⟨?_, ?_, ?_, ?_⟩ <;> ring_nf

theorem cex_ts1 :
    tangent_step ⟨1, Real.sqrt 3, 0, 1⟩ ⟨1, 0, 0, 1, False, False⟩ =
      ⟨1, 0, 0, 1 / 2, False, False⟩ := by
  have hs : Real.sqrt 3 * Real.sqrt 3 = 3 := Real.mul_self_sqrt (by norm_num)
  have h4 : Real.sqrt 4 = 2 := by
    rw [show (4 : ℝ) = 2 ^ 2 by norm_num, Real.sqrt_sq (by norm_num : (0:ℝ) ≤ 2)]
  simp only [tangent_step, mat_vec_mult, dot_product, TangentState.mk.injEq]
  norm_num [hs, h4, Real.sqrt_one]

theorem cex_p1 : chaos_next cexX cexY false (0.05, 0.05) = ((0 : ℝ), 1) := by
  show (map_quadraticR cexX 0.05 0.05, map_quadraticR cexY 0.05 0.05) = _
  rw [cex_Fx0, cex_Fy0]

theorem cex_p2 : chaos_next cexX cexY false ((0 : ℝ), (1 : ℝ)) = ((1 : ℝ), 0) := by
  show (map_quadraticR cexX 0 1, map_quadraticR cexY 0 1) = _
  rw [cex_Fx1, cex_Fy1]

theorem cex_cs1 :
    (trans_step cexX cexY false)^[1] init_chaos =
      ⟨0, 1, ⟨1, 0, 0, 1 / 2, False, False⟩⟩ := by
  rw [Function.iterate_one]
  show ChaosState.mk (chaos_next cexX cexY false (0.05, 0.05)).1
      (chaos_next cexX cexY false (0.05, 0.05)).2
      (tangent_step (jacobian_at cexX cexY false
        (chaos_next cexX cexY false (0.05, 0.05)).1
        (chaos_next cexX cexY false (0.05, 0.05)).2)
        ⟨1, 0, 0, 1, False, False⟩) = _
  rw [cex_p1]
  show ChaosState.mk 0 1 (tangent_step (jacobian_quadratic cexX cexY 0 1)
    ⟨1, 0, 0, 1, False, False⟩) = _
  rw [cex_J1, cex_ts1]

theorem cex_j2at : jacobian_at cexX cexY false (1 : ℝ) (0 : ℝ) = ⟨1 / 2, 0, 0, 1⟩ :=
  cex_J2

theorem cex_meas :
    meas_step cexX cexY 1000000 false
      ⟨⟨0, 1, ⟨1, 0, 0, 1 / 2, False, False⟩⟩, some 0, some 0, some 0, 0⟩ =
    some ⟨⟨1, 0, tangent_step ⟨1 / 2, 0, 0, 1⟩ ⟨1, 0, 0, 1 / 2, False, False⟩⟩,
      some (Real.log (1 / 2)), some (Real.log (1 / 2)), some (Real.log (1 / 2)), 0⟩ := by
  have h14 : Real.sqrt ((1 : ℝ) / 4) = 1 / 2 := by
    rw [show (1 / 4 : ℝ) = (1 / 2) ^ 2 by norm_num,
      Real.sqrt_sq (by norm_num : (0 : ℝ) ≤ 1 / 2)]
  have habs : |(1 / 2 : ℝ)| = 1 / 2 := abs_of_pos (by norm_num)
  simp only [meas_step]
  rw [cex_p2]
  norm_num [cex_j2at, mat_vec_mult, dot_product, determinant, oadd, h14, habs]

theorem cex_loop :
    meas_loop cexX cexY 1000000 false 1
      ⟨⟨0, 1, ⟨1, 0, 0, 1 / 2, False, False⟩⟩, some 0, some 0, some 0, 0⟩ =
    some ⟨⟨1, 0, tangent_step ⟨1 / 2, 0, 0, 1⟩ ⟨1, 0, 0, 1 / 2, False, False⟩⟩,
      some (Real.log (1 / 2)), some (Real.log (1 / 2)), some (Real.log (1 / 2)), 0⟩ := by
  simp only [meas_loop]
  rw [cex_meas]

theorem cex_o1 : orbit_iter cexX cexY false 1 = ((0 : ℝ), 1) := cex_p1

theorem cex_o2 : orbit_iter cexX cexY false 2 = ((1 : ℝ), 0) := by
  show chaos_next cexX cexY false (orbit_iter cexX cexY false 1) = _
  rw [cex_o1]
  exact cex_p2

/-- C4 counterexample: a quadratic map (with exact coefficients in `ℚ[√3]`)
whose `test_chaos` run with `n_trans = n_test = 1`, `thresh = 10⁶` never
hits the divergence or stuck abort, yet returns exactly the sentinel
`(-1, -1, -1)`: the transient tangent step shrinks `‖v2‖` to `1/2` (the
pre-orthogonalization normalization of C1), making every accumulated log
equal `ln (1/2)`, so each exponent is exactly `-1`.  The sentinel is
therefore not equivalent to divergence/degeneracy. -/
theorem test_chaos_sentinel_without_abort :
    test_chaos cexX cexY 1 1 1000000 false = (some (-1), some (-1), some (-1)) ∧
    ¬ test_aborts cexX cexY 1 1 1000000 false := by
  have hlog2 : Real.log 2 ≠ 0 := ne_of_gt (Real.log_pos one_lt_two)
  have hval : Real.log (1 / 2) / Real.log 2 = -1 := by
    rw [one_div, Real.log_inv, neg_div, div_self hlog2]
  constructor
  · simp only [test_chaos]
    rw [cex_cs1, cex_loop]
    norm_num [hval]
  · rintro ⟨k, hk, habk⟩
    have hk0 : k = 0 := by omega
    subst hk0
    norm_num [aborts_at, cex_o1, cex_o2] at habk
